import Mathlib

/-!
# Host relational builtins (`sycl/source/detail/builtins_relational.cpp`)

A shallow embedding of the host implementations of the SYCL relational
functions.  Floating values are stored as their IEEE-754 bit patterns
(`cl_half`, `cl_float`, `cl_double` are 16/32/64-bit words); comparison and
classification are defined on the decoded value.  Integer results are
mathematical integers, and a conversion that C++ leaves undefined yields
`none`.
-/

namespace HostStd

/-! ## IEEE-754 binary interchange formats -/

/-- Parameters of a binary interchange format: exponent and fraction widths. -/
structure Format where
  ebits : Nat
  mbits : Nat

def binary16 : Format := ⟨5, 10⟩
def binary32 : Format := ⟨8, 23⟩
def binary64 : Format := ⟨11, 52⟩

def Format.bias (f : Format) : Nat := 2 ^ (f.ebits - 1) - 1

/-- The all-ones exponent field, reserved for infinities and NaNs. -/
def Format.expMax (f : Format) : Nat := 2 ^ f.ebits - 1

def signField (f : Format) (n : Nat) : Bool :=
  decide ((n / 2 ^ (f.ebits + f.mbits)) % 2 = 1)

def expField (f : Format) (n : Nat) : Nat := (n / 2 ^ f.mbits) % 2 ^ f.ebits

def manField (f : Format) (n : Nat) : Nat := n % 2 ^ f.mbits

def pack (f : Format) (s : Bool) (e m : Nat) : Nat :=
  (if s then 2 ^ (f.ebits + f.mbits) else 0) + e * 2 ^ f.mbits + m

/-- The datum a bit pattern denotes.  `fin z` is the real number
`z * 2 ^ (1 - bias - mbits)`; both zeros denote `fin 0`. -/
inductive Val where
  | nan : Val
  | inf (neg : Bool) : Val
  | fin (z : Int) : Val
deriving DecidableEq

/-- Magnitude of a finite bit pattern in units of `2 ^ (1 - bias - mbits)`. -/
def magnitude (f : Format) (n : Nat) : Nat :=
  if expField f n = 0 then manField f n
  else (2 ^ f.mbits + manField f n) * 2 ^ (expField f n - 1)

def toVal (f : Format) (n : Nat) : Val :=
  if expField f n = f.expMax then
    if manField f n = 0 then Val.inf (signField f n) else Val.nan
  else if signField f n then Val.fin (-(magnitude f n : Int))
  else Val.fin (magnitude f n)

/-- The IEEE-754 comparison: one of less, equal, greater, or unordered
(`none`), the last exactly when an operand is a NaN. -/
def Val.cmp : Val → Val → Option Ordering
  | Val.nan, _ => none
  | _, Val.nan => none
  | Val.fin a, Val.fin b =>
      some (if a < b then Ordering.lt else if a = b then Ordering.eq else Ordering.gt)
  | Val.inf s, Val.inf t =>
      some (if s = t then Ordering.eq else if s then Ordering.lt else Ordering.gt)
  | Val.inf s, Val.fin _ => some (if s then Ordering.lt else Ordering.gt)
  | Val.fin _, Val.inf t => some (if t then Ordering.gt else Ordering.lt)

def fcmp (f : Format) (a b : Nat) : Option Ordering := (toVal f a).cmp (toVal f b)

/-! ### `<cmath>` classification -/

def isnanF (f : Format) (n : Nat) : Bool :=
  decide (expField f n = f.expMax) && !decide (manField f n = 0)

def isinfF (f : Format) (n : Nat) : Bool :=
  decide (expField f n = f.expMax) && decide (manField f n = 0)

def isfiniteF (f : Format) (n : Nat) : Bool := !decide (expField f n = f.expMax)

def isnormalF (f : Format) (n : Nat) : Bool :=
  !decide (expField f n = 0) && !decide (expField f n = f.expMax)

def signbitF (f : Format) (n : Nat) : Bool := signField f n

def isunorderedF (f : Format) (a b : Nat) : Bool := isnanF f a || isnanF f b

/-! ### Conversions -/

def ilog2Aux : Nat → Nat → Nat
  | 0, _ => 0
  | fuel + 1, n => if n < 2 then 0 else ilog2Aux fuel (n / 2) + 1

/-- Index of the highest set bit of a positive number. -/
def ilog2 (n : Nat) : Nat := ilog2Aux n n

/-- Round `n / 2 ^ d` to the nearest integer, ties to even. -/
def shiftRightRNE (n d : Nat) : Nat :=
  let q := n / 2 ^ d
  let r := n % 2 ^ d
  if 2 * r < 2 ^ d then q
  else if 2 * r = 2 ^ d then (if q % 2 = 0 then q else q + 1)
  else q + 1

/-- Round the real number `(-1)^s * n * 2 ^ sc` to format `f`, to nearest with
ties to even; magnitudes beyond the largest finite value become infinity. -/
def roundTo (f : Format) (s : Bool) (n : Nat) (sc : Int) : Nat :=
  if n = 0 then pack f s 0 0
  else
    let emin : Int := 1 - (f.bias : Int)
    let ex : Int := (ilog2 n : Int) + sc
    let e : Int := max ex emin
    let u : Int := e - (f.mbits : Int)
    let k : Nat := if u ≤ sc then n * 2 ^ (sc - u).toNat else shiftRightRNE n (u - sc).toNat
    let base : Nat := (e - emin).toNat
    let mb : Nat := (if ex < emin then 0 else base) * 2 ^ f.mbits + k
    if f.expMax * 2 ^ f.mbits ≤ mb then pack f s f.expMax 0
    else (if s then 2 ^ (f.ebits + f.mbits) else 0) + mb

/-- Conversion of an integer to a floating type. -/
def intToFloat (f : Format) (z : Int) : Nat := roundTo f (decide (z < 0)) z.natAbs 0

/-- Conversion of a floating value to a signed integer type of `w` bits:
truncation toward zero, undefined (`none`) for NaN, infinities and values
outside the range of the integer type. -/
def floatToInt (f : Format) (w : Nat) (n : Nat) : Option Int :=
  match toVal f n with
  | Val.fin z =>
      let t := Int.tdiv z ((2 ^ (f.bias + f.mbits - 1) : Nat) : Int)
      if -((2 ^ (w - 1) : Nat) : Int) ≤ t ∧ t < ((2 ^ (w - 1) : Nat) : Int) then some t else none
  | _ => none

/-- Unary minus on a floating value: the sign bit is flipped. -/
def negF (f : Format) (n : Nat) : Nat :=
  pack f (!signField f n) (expField f n) (manField f n)

/-- Conversion between signed integer types: the value modulo `2 ^ w`, read
as a signed number of `w` bits. -/
def wrapS (w : Nat) (z : Int) : Int :=
  let r := z % ((2 ^ w : Nat) : Int)
  if r < ((2 ^ (w - 1) : Nat) : Int) then r else r - ((2 ^ w : Nat) : Int)

def boolToInt (b : Bool) : Int := if b then 1 else 0

/-! ## The floating types of the host library -/

abbrev cl_half := BitVec 16
abbrev cl_float := BitVec 32
abbrev cl_double := BitVec 64

/-- Modelled from the spec: the conversion of the half type to `float`
(`widenHalf`, section 4.1); the half class is declared in a header outside the
sources at hand.  Zeros, infinities and NaNs keep their class and sign, and
every finite half value, subnormals included, is converted exactly. -/
def half_to_float (h : cl_half) : cl_float :=
  let s := signField binary16 h.toNat
  let e := expField binary16 h.toNat
  let m := manField binary16 h.toNat
  if e = 31 then BitVec.ofNat 32 (pack binary32 s 255 (m * 2 ^ 13))
  else if e = 0 then
    if m = 0 then BitVec.ofNat 32 (pack binary32 s 0 0)
    else BitVec.ofNat 32
      (pack binary32 s (103 + ilog2 m) ((m * 2 ^ (10 - ilog2 m) - 2 ^ 10) * 2 ^ 13))
  else BitVec.ofNat 32 (pack binary32 s (e + 112) (m * 2 ^ 13))

/-- Modelled from the spec: the construction of a half from a `float`, the
narrowing that section 3 allows for half-typed outputs; the half class is
declared in a header outside the sources at hand.  The value is rounded to
nearest, ties to even; a NaN stays a NaN. -/
def float_to_half (x : cl_float) : cl_half :=
  let s := signField binary32 x.toNat
  if expField binary32 x.toNat = 255 then
    if manField binary32 x.toNat = 0 then BitVec.ofNat 16 (pack binary16 s 31 0)
    else BitVec.ofNat 16 (pack binary16 s 31 (512 ||| manField binary32 x.toNat / 2 ^ 13))
  else BitVec.ofNat 16 (roundTo binary16 s (magnitude binary32 x.toNat) (-149))

/-- The three precisions the kernels are instantiated for. -/
inductive Prec where
  | half : Prec
  | single : Prec
  | double : Prec
deriving DecidableEq

/-- The value type `T` of an instantiation. -/
@[reducible] def Prec.T : Prec → Type
  | Prec.half => cl_half
  | Prec.single => cl_float
  | Prec.double => cl_double

def Prec.fmt : Prec → Format
  | Prec.half => binary16
  | Prec.single => binary32
  | Prec.double => binary64

/-- Width of the integer lane paired with a floating lane:
`cl_short`, `cl_int`, `cl_long`. -/
def Prec.maskBits : Prec → Nat
  | Prec.half => 16
  | Prec.single => 32
  | Prec.double => 64

def Prec.bits : (p : Prec) → p.T → Nat
  | Prec.half, x => x.toNat
  | Prec.single, x => x.toNat
  | Prec.double, x => x.toNat

/-- Comparison of two values of type `T`.  A half operand is widened to
`float` first (section 3 of the specification). -/
def Prec.cmp : (p : Prec) → p.T → p.T → Option Ordering
  | Prec.half, x, y => fcmp binary32 (half_to_float x).toNat (half_to_float y).toNat
  | Prec.single, x, y => fcmp binary32 x.toNat y.toNat
  | Prec.double, x, y => fcmp binary64 x.toNat y.toNat

/-- The operator `x == y` on two values of type `T`. -/
def opEq (p : Prec) (x y : p.T) : Bool := decide (p.cmp x y = some Ordering.eq)
/-- The operator `x != y` on two values of type `T`. -/
def opNe (p : Prec) (x y : p.T) : Bool := !decide (p.cmp x y = some Ordering.eq)
/-- The operator `x < y` on two values of type `T`. -/
def opLt (p : Prec) (x y : p.T) : Bool := decide (p.cmp x y = some Ordering.lt)
/-- The operator `x > y` on two values of type `T`. -/
def opGt (p : Prec) (x y : p.T) : Bool := decide (p.cmp x y = some Ordering.gt)
/-- The operator `x <= y` on two values of type `T`. -/
def opLe (p : Prec) (x y : p.T) : Bool :=
  decide (p.cmp x y = some Ordering.lt) || decide (p.cmp x y = some Ordering.eq)
/-- The operator `x >= y` on two values of type `T`. -/
def opGe (p : Prec) (x y : p.T) : Bool :=
  decide (p.cmp x y = some Ordering.gt) || decide (p.cmp x y = some Ordering.eq)

/-- Conversion of an `int` (or `bool`) to `T`; for half through `float`. -/
def Prec.ofInt : (p : Prec) → Int → p.T
  | Prec.half, z => float_to_half (BitVec.ofNat 32 (intToFloat binary32 z))
  | Prec.single, z => BitVec.ofNat 32 (intToFloat binary32 z)
  | Prec.double, z => BitVec.ofNat 64 (intToFloat binary64 z)

/-- Unary minus on `T`; for half through `float`. -/
def Prec.neg : (p : Prec) → p.T → p.T
  | Prec.half, x => float_to_half (BitVec.ofNat 32 (negF binary32 (half_to_float x).toNat))
  | Prec.single, x => BitVec.ofNat 32 (negF binary32 x.toNat)
  | Prec.double, x => BitVec.ofNat 64 (negF binary64 x.toNat)

/-- Conversion of `T` to a signed integer type of `w` bits; for half through
`float`. -/
def Prec.toInt : (p : Prec) → Nat → p.T → Option Int
  | Prec.half, w, x => floatToInt binary32 w (half_to_float x).toNat
  | Prec.single, w, x => floatToInt binary32 w x.toNat
  | Prec.double, w, x => floatToInt binary64 w x.toNat

/-- The type `cast_if_host_half` returns: `float` for half, else `T`. -/
def Prec.castPrec : Prec → Prec
  | Prec.half => Prec.single
  | Prec.single => Prec.single
  | Prec.double => Prec.double

/-- Modelled from the spec: `d::cast_if_host_half` of the helper header, which
widens a half to `float` and leaves `float` and `double` unchanged. -/
def cast_if_host_half : (p : Prec) → p.T → p.castPrec.T
  | Prec.half, x => half_to_float x
  | Prec.single, x => x
  | Prec.double, x => x

def std_isnan (p : Prec) (x : p.T) : Bool := isnanF p.fmt (p.bits x)
def std_isinf (p : Prec) (x : p.T) : Bool := isinfF p.fmt (p.bits x)
def std_isfinite (p : Prec) (x : p.T) : Bool := isfiniteF p.fmt (p.bits x)
def std_isnormal (p : Prec) (x : p.T) : Bool := isnormalF p.fmt (p.bits x)
def std_signbit (p : Prec) (x : p.T) : Bool := signbitF p.fmt (p.bits x)
def std_isunordered (p : Prec) (x y : p.T) : Bool :=
  isunorderedF p.fmt (p.bits x) (p.bits y)

/-! ## The kernel templates -/

def __vFOrdEqual (p : Prec) (x y : p.T) : p.T := p.ofInt (-(boolToInt (opEq p x y)))

def __sFOrdEqual (p : Prec) (x y : p.T) : p.T := p.ofInt (boolToInt (opEq p x y))

def __vFUnordNotEqual (p : Prec) (x y : p.T) : p.T := p.ofInt (-(boolToInt (opNe p x y)))

def __sFUnordNotEqual (p : Prec) (x y : p.T) : p.T := p.ofInt (boolToInt (opNe p x y))

def __vFOrdGreaterThan (p : Prec) (x y : p.T) : p.T := p.ofInt (-(boolToInt (opGt p x y)))

def __sFOrdGreaterThan (p : Prec) (x y : p.T) : p.T := p.ofInt (boolToInt (opGt p x y))

def __vFOrdGreaterThanEqual (p : Prec) (x y : p.T) : p.T :=
  p.ofInt (-(boolToInt (opGe p x y)))

def __sFOrdGreaterThanEqual (p : Prec) (x y : p.T) : p.T :=
  p.ofInt (boolToInt (opGe p x y))

def __vFOrdLessThanEqual (p : Prec) (x y : p.T) : p.T :=
  p.ofInt (-(boolToInt (opLe p x y)))

def __sFOrdLessThanEqual (p : Prec) (x y : p.T) : p.T :=
  p.ofInt (boolToInt (opLe p x y))

def __vLessOrGreater (p : Prec) (x y : p.T) : p.T :=
  p.ofInt (-(boolToInt (opLt p x y || opGt p x y)))

def __sLessOrGreater (p : Prec) (x y : p.T) : p.T :=
  p.ofInt (boolToInt (opLt p x y || opGt p x y))

def __vOrdered (p : Prec) (x y : p.T) : p.T :=
  p.ofInt (-(boolToInt
    (!std_isunordered p.castPrec (cast_if_host_half p x) (cast_if_host_half p y))))

def __sOrdered (p : Prec) (x y : p.T) : p.T :=
  p.ofInt (boolToInt
    (!std_isunordered p.castPrec (cast_if_host_half p x) (cast_if_host_half p y)))

def __vUnordered (p : Prec) (x y : p.T) : p.T :=
  p.neg (p.ofInt (boolToInt
    (std_isunordered p.castPrec (cast_if_host_half p x) (cast_if_host_half p y))))

def __sUnordered (p : Prec) (x y : p.T) : p.T :=
  p.ofInt (boolToInt
    (std_isunordered p.castPrec (cast_if_host_half p x) (cast_if_host_half p y)))

/-! ## Host implementations: scalar forms, returning `cl_int` -/

def FOrdEqual (p : Prec) (x y : p.T) : Option Int := p.toInt 32 (__sFOrdEqual p x y)

def FUnordNotEqual (p : Prec) (x y : p.T) : Option Int :=
  p.toInt 32 (__sFUnordNotEqual p x y)

def FOrdGreaterThan (p : Prec) (x y : p.T) : Option Int :=
  p.toInt 32 (__sFOrdGreaterThan p x y)

def FOrdGreaterThanEqual (p : Prec) (x y : p.T) : Option Int :=
  p.toInt 32 (__sFOrdGreaterThanEqual p x y)

def FOrdLessThan (p : Prec) (x y : p.T) : Int := boolToInt (opLt p x y)

def FOrdLessThanEqual (p : Prec) (x y : p.T) : Option Int :=
  p.toInt 32 (__sFOrdLessThanEqual p x y)

def LessOrGreater (p : Prec) (x y : p.T) : Option Int :=
  p.toInt 32 (__sLessOrGreater p x y)

def IsFinite : (p : Prec) → p.T → Int
  | Prec.single, x => boolToInt (std_isfinite Prec.single x)
  | Prec.double, x => boolToInt (std_isfinite Prec.double x)
  | Prec.half, x => boolToInt (std_isfinite Prec.single (cast_if_host_half Prec.half x))

def IsInf : (p : Prec) → p.T → Int
  | Prec.single, x => boolToInt (std_isinf Prec.single x)
  | Prec.double, x => boolToInt (std_isinf Prec.double x)
  | Prec.half, x => boolToInt (std_isinf Prec.single (cast_if_host_half Prec.half x))

def IsNan : (p : Prec) → p.T → Int
  | Prec.single, x => boolToInt (std_isnan Prec.single x)
  | Prec.double, x => boolToInt (std_isnan Prec.double x)
  | Prec.half, x => boolToInt (std_isnan Prec.single (cast_if_host_half Prec.half x))

def IsNormal : (p : Prec) → p.T → Int
  | Prec.single, x => boolToInt (std_isnormal Prec.single x)
  | Prec.double, x => boolToInt (std_isnormal Prec.double x)
  | Prec.half, x => boolToInt (std_isnormal Prec.single (cast_if_host_half Prec.half x))

/-- The scalar `Ordered` is written with the lane kernel `__vOrdered`. -/
def Ordered (p : Prec) (x y : p.T) : Option Int := p.toInt 32 (__vOrdered p x y)

def Unordered (p : Prec) (x y : p.T) : Option Int := p.toInt 32 (__sUnordered p x y)

def SignBitSet : (p : Prec) → p.T → Int
  | Prec.single, x => boolToInt (std_signbit Prec.single x)
  | Prec.double, x => boolToInt (std_signbit Prec.double x)
  | Prec.half, x => boolToInt (std_signbit Prec.single (cast_if_host_half Prec.half x))

/-! ## Lane kernels with an integer return type -/

def __vFOrdLessThan : (p : Prec) → p.T → p.T → Int
  | Prec.single, x, y => -(boolToInt (opLt Prec.single x y))
  | Prec.double, x, y => wrapS 64 (-(boolToInt (opLt Prec.double x y)))
  | Prec.half, x, y => wrapS 16 (-(boolToInt (opLt Prec.half x y)))

def __vIsFinite : (p : Prec) → p.T → Int
  | Prec.single, x => -(boolToInt (std_isfinite Prec.single x))
  | Prec.double, x => -(wrapS 64 (boolToInt (std_isfinite Prec.double x)))
  | Prec.half, x =>
      wrapS 16 (-(boolToInt (std_isfinite Prec.single (cast_if_host_half Prec.half x))))

def __vIsInf : (p : Prec) → p.T → Int
  | Prec.single, x => -(boolToInt (std_isinf Prec.single x))
  | Prec.double, x => -(wrapS 64 (boolToInt (std_isinf Prec.double x)))
  | Prec.half, x =>
      wrapS 16 (-(wrapS 16 (boolToInt (std_isinf Prec.single (cast_if_host_half Prec.half x)))))

def __vIsNan : (p : Prec) → p.T → Int
  | Prec.single, x => -(boolToInt (std_isnan Prec.single x))
  | Prec.double, x => -(wrapS 64 (boolToInt (std_isnan Prec.double x)))
  | Prec.half, x =>
      wrapS 16 (-(wrapS 16 (boolToInt (std_isnan Prec.single (cast_if_host_half Prec.half x)))))

def __vIsNormal : (p : Prec) → p.T → Int
  | Prec.single, x => -(boolToInt (std_isnormal Prec.single x))
  | Prec.double, x => -(wrapS 64 (boolToInt (std_isnormal Prec.double x)))
  | Prec.half, x =>
      wrapS 16
        (-(wrapS 16 (boolToInt (std_isnormal Prec.single (cast_if_host_half Prec.half x)))))

def __vSignBitSet : (p : Prec) → p.T → Int
  | Prec.single, x => -(boolToInt (std_signbit Prec.single x))
  | Prec.double, x => -(wrapS 64 (boolToInt (std_signbit Prec.double x)))
  | Prec.half, x =>
      wrapS 16
        (-(wrapS 16 (boolToInt (std_signbit Prec.single (cast_if_host_half Prec.half x)))))

/-! ## Lane forms -/

/-- Storing a `T` result of a lane kernel into the integer lane of the result
vector (`cl_short`, `cl_int` or `cl_long`). -/
def storeT (p : Prec) (v : p.T) : Option Int := p.toInt p.maskBits v

/-- Modelled from the spec: the helper macro `MAKE_1V_2V_FUNC(Fun, Call, Ret,
Arg1, Arg2)` of `builtins_helper.hpp`, a header outside the sources at hand.
It applies `Call` to each lane pair independently and stores each result in
the lane of the result vector. -/
def MAKE_1V_2V_FUNC {α β : Type} (call : α → α → β) (store : β → Option Int)
    (x y : List α) : List (Option Int) :=
  List.zipWith (fun a b => store (call a b)) x y

/-- Modelled from the spec: the helper macro `MAKE_1V_FUNC(Fun, Call, Ret,
Arg1)` of `builtins_helper.hpp`, the one-operand counterpart of
`MAKE_1V_2V_FUNC`. -/
def MAKE_1V_FUNC {α β : Type} (call : α → β) (store : β → Option Int)
    (x : List α) : List (Option Int) :=
  List.map (fun a => store (call a)) x

def FOrdEqual_lane (p : Prec) (x y : p.T) : Option Int := storeT p (__vFOrdEqual p x y)
def FUnordNotEqual_lane (p : Prec) (x y : p.T) : Option Int :=
  storeT p (__vFUnordNotEqual p x y)
def FOrdGreaterThan_lane (p : Prec) (x y : p.T) : Option Int :=
  storeT p (__vFOrdGreaterThan p x y)
def FOrdGreaterThanEqual_lane (p : Prec) (x y : p.T) : Option Int :=
  storeT p (__vFOrdGreaterThanEqual p x y)
def FOrdLessThan_lane (p : Prec) (x y : p.T) : Option Int := some (__vFOrdLessThan p x y)
def FOrdLessThanEqual_lane (p : Prec) (x y : p.T) : Option Int :=
  storeT p (__vFOrdLessThanEqual p x y)
def LessOrGreater_lane (p : Prec) (x y : p.T) : Option Int :=
  storeT p (__vLessOrGreater p x y)
def Ordered_lane (p : Prec) (x y : p.T) : Option Int := storeT p (__vOrdered p x y)
def Unordered_lane (p : Prec) (x y : p.T) : Option Int := storeT p (__vUnordered p x y)
def IsFinite_lane (p : Prec) (x : p.T) : Option Int := some (__vIsFinite p x)
def IsInf_lane (p : Prec) (x : p.T) : Option Int := some (__vIsInf p x)
def IsNan_lane (p : Prec) (x : p.T) : Option Int := some (__vIsNan p x)
def IsNormal_lane (p : Prec) (x : p.T) : Option Int := some (__vIsNormal p x)
def SignBitSet_lane (p : Prec) (x : p.T) : Option Int := some (__vSignBitSet p x)

/-- The vector overload `FOrdLessThan` generated by
`MAKE_1V_2V_FUNC(FOrdLessThan, __vFOrdLessThan, ...)`. -/
def FOrdLessThan_vec (p : Prec) (x y : List p.T) : List (Option Int) :=
  MAKE_1V_2V_FUNC (__vFOrdLessThan p) some x y

/-- A canonical mask lane: all bits clear or all bits set. -/
def IsMask (r : Option Int) : Prop := r = some 0 ∨ r = some (-1)

/-! ## Integer lanes: reductions, bit merge and selection -/

/-- Modelled from the spec: `d::msbIsSet` of the helper header, a header
outside the sources at hand: the per-lane "MSB set" predicate of section 4.4,
which examines only the top bit of an integer of any magnitude. -/
def msbIsSet {w : Nat} (x : BitVec w) : Bool := x.getLsbD (w - 1)

def __Any {w : Nat} (x : BitVec w) : Int := boolToInt (msbIsSet x)

def __All {w : Nat} (x : BitVec w) : Int := boolToInt (msbIsSet x)

/-- Modelled from the spec: the helper macro `MAKE_SR_1V_OR(Fun, Call, Ret,
Arg1)` of `builtins_helper.hpp`, a header outside the sources at hand: the
boolean OR-reduction of `Call` over the lanes, returned as 0 or 1. -/
def MAKE_SR_1V_OR {α : Type} (call : α → Int) : List α → Int
  | [] => 0
  | x :: xs => boolToInt (decide (call x ≠ 0) || decide (MAKE_SR_1V_OR call xs ≠ 0))

/-- Modelled from the spec: the helper macro `MAKE_SR_1V_AND(Fun, Call, Ret,
Arg1)` of `builtins_helper.hpp`, a header outside the sources at hand: the
boolean AND-reduction of `Call` over the lanes, returned as 0 or 1. -/
def MAKE_SR_1V_AND {α : Type} (call : α → Int) : List α → Int
  | [] => 1
  | x :: xs => boolToInt (decide (call x ≠ 0) && decide (MAKE_SR_1V_AND call xs ≠ 0))

/-- The reduction `Any` over integer lanes of `w` bits. -/
def Any {w : Nat} (x : List (BitVec w)) : Int := MAKE_SR_1V_OR __Any x

/-- The reduction `All` over integer lanes of `w` bits. -/
def All {w : Nat} (x : List (BitVec w)) : Int := MAKE_SR_1V_AND __All x

/-- The scalar integer types `bitselect` and `Select` are instantiated for. -/
inductive IntTy where
  | char : IntTy
  | uchar : IntTy
  | short : IntTy
  | ushort : IntTy
  | int : IntTy
  | uint : IntTy
  | long : IntTy
  | ulong : IntTy
deriving DecidableEq

def IntTy.bits : IntTy → Nat
  | IntTy.char => 8
  | IntTy.uchar => 8
  | IntTy.short => 16
  | IntTy.ushort => 16
  | IntTy.int => 32
  | IntTy.uint => 32
  | IntTy.long => 64
  | IntTy.ulong => 64

def IntTy.signed : IntTy → Bool
  | IntTy.char => true
  | IntTy.uchar => false
  | IntTy.short => true
  | IntTy.ushort => false
  | IntTy.int => true
  | IntTy.uint => false
  | IntTy.long => true
  | IntTy.ulong => false

/-- Width of the type the operands of an arithmetic operator are promoted to:
`int` for the types narrower than `int`, else the type itself. -/
def IntTy.promotedBits : IntTy → Nat
  | IntTy.long => 64
  | IntTy.ulong => 64
  | _ => 32

/-- The values of an integer type, as bit patterns. -/
abbrev IntTy.T (t : IntTy) : Type := BitVec t.bits

/-- Integer promotion: sign extension of a signed value, zero extension of an
unsigned one. -/
def IntTy.promote (t : IntTy) (x : t.T) : BitVec t.promotedBits :=
  if t.signed then x.signExtend t.promotedBits else x.setWidth t.promotedBits

/-- Conversion of a promoted result back to the type: the low bits. -/
def IntTy.convert (t : IntTy) (r : BitVec t.promotedBits) : t.T := r.setWidth t.bits

/-- The integer overload of `__bitselect`: `(a & ~c) | (b & c)`. -/
def __bitselect (t : IntTy) (a b c : t.T) : t.T :=
  t.convert ((t.promote a &&& ~~~ (t.promote c)) ||| (t.promote b &&& t.promote c))

/-- The union `databitset<T>`: one word of storage, read through member `f`
as the floating value and through member `i` as the unsigned integer of the
same size. -/
structure databitset (p : Prec) where
  word : BitVec p.maskBits

/-- Reading member `f` of the union. -/
def databitset.f : (p : Prec) → databitset p → p.T
  | Prec.half, d => d.word
  | Prec.single, d => d.word
  | Prec.double, d => d.word

/-- Reading member `i` of the union. -/
def databitset.i (p : Prec) (d : databitset p) : BitVec p.maskBits := d.word

/-- Writing member `f` of the union. -/
def databitset.set_f : (p : Prec) → p.T → databitset p
  | Prec.half, x => ⟨x⟩
  | Prec.single, x => ⟨x⟩
  | Prec.double, x => ⟨x⟩

/-- Writing member `i` of the union. -/
def databitset.set_i (p : Prec) (v : BitVec p.maskBits) : databitset p := ⟨v⟩

/-- The merge `(ba.i & ~bc.i) | (bb.i & bc.i)` on the integer members; the
`uint16_t` members of the half union are promoted to `int` and the result is
converted back. -/
def mergeBits : (p : Prec) → BitVec p.maskBits → BitVec p.maskBits → BitVec p.maskBits
    → BitVec p.maskBits
  | Prec.half, a, b, c =>
      IntTy.convert IntTy.ushort
        ((IntTy.promote IntTy.ushort a &&& ~~~ (IntTy.promote IntTy.ushort c))
          ||| (IntTy.promote IntTy.ushort b &&& IntTy.promote IntTy.ushort c))
  | Prec.single, a, b, c => (a &&& ~~~ c) ||| (b &&& c)
  | Prec.double, a, b, c => (a &&& ~~~ c) ||| (b &&& c)

/-- The floating overload of `__bitselect`. -/
def __bitselect_genfloat (p : Prec) (a b c : p.T) : p.T :=
  let ba := databitset.set_f p a
  let bb := databitset.set_f p b
  let bc := databitset.set_f p c
  let _br := databitset.set_f p (p.ofInt 0)
  let br := databitset.set_i p (mergeBits p (ba.i p) (bb.i p) (bc.i p))
  br.f p

/-- The bit reinterpretation of a floating value (section 4.1). -/
def reinterpretBits (p : Prec) (x : p.T) : BitVec p.maskBits := (databitset.set_f p x).i p

/-- The floating value with a given bit pattern (section 4.1). -/
def reconstructFloat (p : Prec) (v : BitVec p.maskBits) : p.T := (databitset.set_i p v).f p

/-- The scalar selection kernel: `c ? b : a`. -/
def __Select {w : Nat} {α : Type} (c : BitVec w) (b a : α) : α :=
  if c ≠ 0 then b else a

/-- The lane selection kernel: `msbIsSet(c) ? b : a`. -/
def __vSelect {w : Nat} {α : Type} (c : BitVec w) (b a : α) : α :=
  if msbIsSet c then b else a

/-- Modelled from the spec: the vector part of the helper macros
`MAKE_SC_FSC_1V_2V_3V_FV` and `MAKE_SC_1V_2V_3V` of `builtins_helper.hpp`, a
header outside the sources at hand: the lane kernel applied to each lane
triple independently. -/
def MAKE_1V_2V_3V {α β γ δ : Type} (call : α → β → γ → δ) :
    List α → List β → List γ → List δ
  | x :: xs, y :: ys, z :: zs => call x y z :: MAKE_1V_2V_3V call xs ys zs
  | _, _, _ => []

/-- Modelled from the spec: the scalar overload `Select(c, b, a)` generated by
`MAKE_SC_FSC_1V_2V_3V_FV(Select, __vSelect, ...)`; it follows the scalar
discipline, `result = c ? b : a`, of the kernel `__Select`. -/
def Select {w : Nat} {α : Type} (c : BitVec w) (b a : α) : α := __Select c b a

/-- The vector overload `Select` generated by
`MAKE_SC_FSC_1V_2V_3V_FV(Select, __vSelect, ...)`. -/
def Select_vec {w : Nat} {α : Type} (c : List (BitVec w)) (b a : List α) : List α :=
  MAKE_1V_2V_3V __vSelect c b a

/-- The scalar overload `bitselect` generated by `MAKE_SC_1V_2V_3V` for an
integer type. -/
def bitselect (t : IntTy) (a b c : t.T) : t.T := __bitselect t a b c

/-- The scalar overload `bitselect` generated by `MAKE_SC_1V_2V_3V` for a
floating type. -/
def bitselect_genfloat (p : Prec) (a b c : p.T) : p.T := __bitselect_genfloat p a b c

end HostStd

/-!
# Hooks to `mlir-translate` (`mlir/lib/Dialect/SPIRV/Serialization/TranslateRegistration.cpp`)

The SPIR-V serializer and deserializer and the MLIR module operations are a
library this file is written against; they are taken as parameters.  A
32-bit word is the four bytes it occupies in memory, so that viewing a byte
buffer as words, and words as bytes, regroups the bytes.
-/

namespace Translate

abbrev Byte := BitVec 8

/-- A `uint32_t` object: its four bytes in memory order. -/
structure Word where
  b0 : Byte
  b1 : Byte
  b2 : Byte
  b3 : Byte
deriving DecidableEq

inductive LogicalResult where
  | success : LogicalResult
  | failure : LogicalResult
deriving DecidableEq

/-- A `FileLineColLoc`. -/
structure Loc where
  filename : String
  line : Nat
  column : Nat
deriving DecidableEq

/-- An `llvm::MemoryBuffer`: its identifier and its bytes. -/
structure MemoryBuffer where
  identifier : String
  bytes : List Byte

def MemoryBuffer.getBufferSize (input : MemoryBuffer) : Nat := input.bytes.length

/-- The library the translation hooks call, for spv.module operations `S` and
MLIR modules `M`: `spirv::deserialize`, which returns no module on failure;
`spirv::serialize`, which returns its result and the words it put in the
binary; the spv.module operations that `ModuleOp::walk` visits; and
`ModuleOp::create` and `push_front` on the body of a module. -/
structure Library (S M : Type) where
  deserialize : List Word → Option S
  serialize : S → LogicalResult × List Word
  walk : M → List S
  create : Loc → M
  push_front : M → S → M

/-- The array `makeArrayRef(reinterpret_cast<const uint32_t *>(start), n)`:
the first `n` words of the bytes. -/
def makeArrayRef : List Byte → Nat → List Word
  | _, 0 => []
  | b0 :: b1 :: b2 :: b3 :: rest, n + 1 => ⟨b0, b1, b2, b3⟩ :: makeArrayRef rest n
  | _, _ + 1 => []

/-- The bytes `reinterpret_cast<char *>(binary.data())` of a word array. -/
def wordBytes : List Word → List Byte
  | [] => []
  | w :: ws => w.b0 :: w.b1 :: w.b2 :: w.b3 :: wordBytes ws

/-- What a call of `deserializeModule` does: the module it returns (`none`
for a null module), the diagnostics it emits, and the arguments of its
calls of `spirv::deserialize`, in order. -/
structure DeserializeRun (M : Type) where
  module : Option M
  diagnostics : List String
  calls : List (List Word)

def deserializeModule {S M : Type} (L : Library S M) (input : MemoryBuffer) :
    DeserializeRun M :=
  let start := input.bytes
  let size := input.getBufferSize
  if size % 4 ≠ 0 then
    ⟨none, ["SPIR-V binary module must contain integral number of 32-bit words"], []⟩
  else
    let binary := makeArrayRef start (size / 4)
    match L.deserialize binary with
    | none => ⟨none, [], [binary]⟩
    | some spirvModule =>
        let module := L.create ⟨input.identifier, 0, 0⟩
        ⟨some (L.push_front module spirvModule), [], [binary]⟩

/-- What a call of `serializeModule` does: its result, the output stream
after the call, and the diagnostics it emits. -/
structure SerializeRun where
  result : LogicalResult
  output : List Byte
  diagnostics : List String

/-- The function `serializeModule`; `output` is the content of the output
stream before the call, and a null `module` is `none`. -/
def serializeModule {S M : Type} (L : Library S M) (module : Option M)
    (output : List Byte) : SerializeRun :=
  match module with
  | none => ⟨LogicalResult.failure, output, []⟩
  | some m =>
      let spirvModules := L.walk m
      match spirvModules with
      | [] => ⟨LogicalResult.failure, output, ["found no \x27spv.module\x27 op"]⟩
      | [op] =>
          match L.serialize op with
          | (LogicalResult.failure, _) => ⟨LogicalResult.failure, output, []⟩
          | (LogicalResult.success, binary) =>
              ⟨LogicalResult.success, output ++ wordBytes binary, []⟩
      | _ :: _ :: _ =>
          ⟨LogicalResult.failure, output, ["found more than one \x27spv.module\x27 op"]⟩

end Translate

namespace HostStd

/-! ## Conversions of the truth constants -/

theorem storeT_ofInt_zero (p : Prec) : storeT p (p.ofInt 0) = some 0 := by
  cases p <;> decide!

theorem storeT_ofInt_neg_one (p : Prec) : storeT p (p.ofInt (-1)) = some (-1) := by
  cases p <;> decide!

theorem storeT_neg_ofInt_zero (p : Prec) : storeT p (p.neg (p.ofInt 0)) = some 0 := by
  cases p <;> decide!

theorem storeT_neg_ofInt_one (p : Prec) : storeT p (p.neg (p.ofInt 1)) = some (-1) := by
  cases p <;> decide!

theorem toInt32_ofInt_zero (p : Prec) : p.toInt 32 (p.ofInt 0) = some 0 := by
  cases p <;> decide!

theorem toInt32_ofInt_one (p : Prec) : p.toInt 32 (p.ofInt 1) = some 1 := by
  cases p <;> decide!

theorem toInt32_ofInt_neg_one (p : Prec) : p.toInt 32 (p.ofInt (-1)) = some (-1) := by
  cases p <;> decide!

theorem storeT_ofInt_neg_bool (p : Prec) (b : Bool) :
    storeT p (p.ofInt (-(boolToInt b))) = some (if b then -1 else 0) := by
  cases b
  · simpa [boolToInt] using storeT_ofInt_zero p
  · simpa [boolToInt] using storeT_ofInt_neg_one p

theorem storeT_neg_ofInt_bool (p : Prec) (b : Bool) :
    storeT p (p.neg (p.ofInt (boolToInt b))) = some (if b then -1 else 0) := by
  cases b
  · simpa [boolToInt] using storeT_neg_ofInt_zero p
  · simpa [boolToInt] using storeT_neg_ofInt_one p

theorem toInt32_ofInt_bool (p : Prec) (b : Bool) :
    p.toInt 32 (p.ofInt (boolToInt b)) = some (if b then 1 else 0) := by
  cases b
  · simpa [boolToInt] using toInt32_ofInt_zero p
  · simpa [boolToInt] using toInt32_ofInt_one p

theorem toInt32_ofInt_neg_bool (p : Prec) (b : Bool) :
    p.toInt 32 (p.ofInt (-(boolToInt b))) = some (if b then -1 else 0) := by
  cases b
  · simpa [boolToInt] using toInt32_ofInt_zero p
  · simpa [boolToInt] using toInt32_ofInt_neg_one p

theorem wrapS_neg_bool (b : Bool) :
    wrapS 16 (-(boolToInt b)) = (if b then -1 else 0)
    ∧ wrapS 64 (-(boolToInt b)) = (if b then -1 else 0)
    ∧ -(wrapS 64 (boolToInt b)) = (if b then -1 else 0)
    ∧ wrapS 16 (-(wrapS 16 (boolToInt b))) = (if b then -1 else 0)
    ∧ -(boolToInt b) = (if b then -1 else 0) := by
  cases b <;> decide

theorem isMask_ite (b : Bool) : IsMask (some (if b then -1 else 0)) := by
  cases b
  · exact Or.inl rfl
  · exact Or.inr rfl

/-! ## Widening of half values and NaN operands -/

theorem ilog2Aux_spec : ∀ (fuel n : Nat), n ≤ fuel → 0 < n →
    2 ^ ilog2Aux fuel n ≤ n ∧ n < 2 ^ (ilog2Aux fuel n + 1) := by
  intro fuel
  induction fuel with
  | zero => intro n h1 h2; omega
  | succ k ih =>
    intro n h1 h2
    unfold ilog2Aux
    by_cases hn : n < 2
    · simp only [hn, if_true]
      constructor
      · simpa using h2
      · simpa using hn
    · simp only [hn, if_false]
      have h3 := ih (n / 2) (by omega) (by omega)
      rw [pow_succ, pow_succ (n := ilog2Aux k (n / 2) + 1)]
      omega

theorem ilog2_spec (n : Nat) (h : 0 < n) : 2 ^ ilog2 n ≤ n ∧ n < 2 ^ (ilog2 n + 1) :=
  ilog2Aux_spec n n (Nat.le_refl n) h

theorem fields_pack32 (s : Bool) (e m : Nat) (he : e < 256) (hm : m < 2 ^ 23) :
    signField binary32 (BitVec.ofNat 32 (pack binary32 s e m)).toNat = s
    ∧ expField binary32 (BitVec.ofNat 32 (pack binary32 s e m)).toNat = e
    ∧ manField binary32 (BitVec.ofNat 32 (pack binary32 s e m)).toNat = m := by
  simp only [signField, expField, manField, pack, binary32, BitVec.toNat_ofNat]
  norm_num at hm ⊢
  cases s <;> simp <;> omega


theorem expField16_lt (n : Nat) : expField binary16 n < 32 := by
  simp only [expField, binary16]; norm_num; omega

theorem manField16_lt (n : Nat) : manField binary16 n < 1024 := by
  simp only [manField, binary16]; norm_num; omega

theorem subnormal_frac_lt (m : Nat) (h0 : m ≠ 0) (h1 : m < 1024) :
    ilog2 m ≤ 9 ∧ (m * 2 ^ (10 - ilog2 m) - 2 ^ 10) * 2 ^ 13 < 2 ^ 23 := by
  obtain ⟨hlo, hhi⟩ := ilog2_spec m (Nat.pos_of_ne_zero h0)
  have hp : ilog2 m ≤ 9 := by
    by_contra hc
    have : 2 ^ 10 ≤ 2 ^ ilog2 m := Nat.pow_le_pow_right (by norm_num) (by omega)
    omega
  refine ⟨hp, ?_⟩
  have h2 : m * 2 ^ (10 - ilog2 m) < 2 ^ (ilog2 m + 1) * 2 ^ (10 - ilog2 m) :=
    Nat.mul_lt_mul_of_pos_right hhi (Nat.two_pow_pos _)
  have h3 : 2 ^ (ilog2 m + 1) * 2 ^ (10 - ilog2 m) = 2 ^ 11 := by
    rw [← pow_add]; congr 1; omega
  rw [h3] at h2
  norm_num at h2 ⊢
  omega

/-- Fields of a widened half. -/
theorem half_to_float_fields (h : cl_half) :
    signField binary32 (half_to_float h).toNat = signField binary16 h.toNat
    ∧ expField binary32 (half_to_float h).toNat =
        (if expField binary16 h.toNat = 31 then 255
         else if expField binary16 h.toNat = 0 then
           (if manField binary16 h.toNat = 0 then 0 else 103 + ilog2 (manField binary16 h.toNat))
         else expField binary16 h.toNat + 112)
    ∧ manField binary32 (half_to_float h).toNat =
        (if expField binary16 h.toNat = 31 then manField binary16 h.toNat * 2 ^ 13
         else if expField binary16 h.toNat = 0 then
           (if manField binary16 h.toNat = 0 then 0
            else (manField binary16 h.toNat * 2 ^ (10 - ilog2 (manField binary16 h.toNat))
                    - 2 ^ 10) * 2 ^ 13)
         else manField binary16 h.toNat * 2 ^ 13) := by
  have he := expField16_lt h.toNat
  have hm := manField16_lt h.toNat
  unfold half_to_float
  by_cases h1 : expField binary16 h.toNat = 31
  · simp only [h1, if_true]
    exact fields_pack32 _ _ _ (by norm_num) (by norm_num; omega)
  · by_cases h2 : expField binary16 h.toNat = 0
    · by_cases h3 : manField binary16 h.toNat = 0
      · simp only [h1, h2, h3, if_true, if_false]
        simpa using fields_pack32 (signField binary16 h.toNat) 0 0 (by norm_num) (by norm_num)
      · simp only [h1, h2, h3, if_true, if_false]
        obtain ⟨hp, hf⟩ := subnormal_frac_lt _ h3 hm
        simpa using fields_pack32 (signField binary16 h.toNat) _ _ (by omega) hf
    · simp only [h1, h2, if_false]
      exact fields_pack32 _ _ _ (by omega) (by norm_num; omega)

theorem isnan_half_to_float (h : cl_half) :
    isnanF binary32 (half_to_float h).toNat = isnanF binary16 h.toNat := by
  obtain ⟨_, he, hm⟩ := half_to_float_fields h
  have hb := expField16_lt h.toNat
  have hmb := manField16_lt h.toNat
  have e32 : binary32.expMax = 255 := by decide
  have e16 : binary16.expMax = 31 := by decide
  unfold isnanF
  rw [he, hm, e32, e16]
  by_cases h1 : expField binary16 h.toNat = 31
  · simp [h1]
  · by_cases h2 : expField binary16 h.toNat = 0
    · by_cases h3 : manField binary16 h.toNat = 0
      · simp [h1, h2, h3]
      · have := (subnormal_frac_lt _ h3 hmb).1
        simp only [h1, h2, h3, if_true, if_false, decide_False, Bool.false_and]
        have : ¬ (103 + ilog2 (manField binary16 h.toNat) = 255) := by omega
        simp [this]
    · have : ¬ (expField binary16 h.toNat + 112 = 255) := by omega
      simp [h1, h2, this]

theorem toVal_eq_nan (f : Format) (n : Nat) : toVal f n = Val.nan ↔ isnanF f n = true := by
  unfold toVal isnanF
  by_cases h1 : expField f n = f.expMax <;> by_cases h2 : manField f n = 0 <;>
    by_cases h3 : signField f n = true <;> simp [h1, h2, h3]

theorem val_cmp_eq_none (a b : Val) : a.cmp b = none ↔ a = Val.nan ∨ b = Val.nan := by
  cases a <;> cases b <;> simp [Val.cmp]

theorem fcmp_eq_none (f : Format) (a b : Nat) :
    fcmp f a b = none ↔ isnanF f a = true ∨ isnanF f b = true := by
  rw [fcmp, val_cmp_eq_none, toVal_eq_nan, toVal_eq_nan]

/-- A comparison is unordered exactly when an operand is a NaN. -/
theorem prec_cmp_eq_none (p : Prec) (x y : p.T) :
    p.cmp x y = none ↔ std_isnan p x = true ∨ std_isnan p y = true := by
  cases p
  · simp only [Prec.cmp, fcmp_eq_none, isnan_half_to_float]; rfl
  · simp only [Prec.cmp, fcmp_eq_none]; rfl
  · simp only [Prec.cmp, fcmp_eq_none]; rfl

theorem magnitude_half_to_float (h : cl_half) (hf : expField binary16 h.toNat ≠ 31) :
    magnitude binary32 (half_to_float h).toNat = magnitude binary16 h.toNat * 2 ^ 125 := by
  obtain ⟨_, he, hm⟩ := half_to_float_fields h
  have hb := expField16_lt h.toNat
  have hmb := manField16_lt h.toNat
  unfold magnitude
  rw [he, hm]
  have m32 : binary32.mbits = 23 := rfl
  have m16 : binary16.mbits = 10 := rfl
  rw [m32, m16, if_neg hf, if_neg hf]
  by_cases h2 : expField binary16 h.toNat = 0
  · rw [if_pos h2, if_pos h2, if_pos h2]
    by_cases h3 : manField binary16 h.toNat = 0
    · rw [if_pos h3, if_pos h3, h3]; rfl
    · rw [if_neg h3, if_neg h3]
      obtain ⟨hlo, hhi⟩ := ilog2_spec _ (Nat.pos_of_ne_zero h3)
      have hp := (subnormal_frac_lt _ h3 hmb).1
      generalize manField binary16 h.toNat = m at *
      generalize ilog2 m = q at *
      have h5 : 2 ^ 10 ≤ m * 2 ^ (10 - q) := by
        calc 2 ^ 10 = 2 ^ q * 2 ^ (10 - q) := by rw [← pow_add]; congr 1; omega
          _ ≤ m * 2 ^ (10 - q) := Nat.mul_le_mul_right _ hlo
      have h6 : 2 ^ 23 + (m * 2 ^ (10 - q) - 2 ^ 10) * 2 ^ 13 = m * 2 ^ (10 - q) * 2 ^ 13 := by
        have h7 : 2 ^ 10 * 2 ^ 13 ≤ m * 2 ^ (10 - q) * 2 ^ 13 := Nat.mul_le_mul_right _ h5
        rw [Nat.sub_mul]
        norm_num at h7 ⊢
        omega
      have h8 : ¬ (103 + q = 0) := by omega
      have hq : 10 - q + (13 + (103 + q - 1)) = 125 := by omega
      rw [if_neg h8, h6, Nat.mul_assoc, Nat.mul_assoc, ← pow_add, ← pow_add, hq]
  · rw [if_neg h2, if_neg h2, if_neg h2]
    have h8 : ¬ (expField binary16 h.toNat + 112 = 0) := by omega
    rw [if_neg h8]
    generalize manField binary16 h.toNat = m at *
    generalize expField binary16 h.toNat = e at *
    have h9 : (2:Nat) ^ (e + 112 - 1) = 2 ^ (e - 1) * 2 ^ 112 := by
      rw [← pow_add]; congr 1; omega
    rw [h9]
    ring

/-- Widening a half is exact: the widened pattern denotes the same datum. -/
theorem toVal_half_to_float (h : cl_half) :
    toVal binary32 (half_to_float h).toNat =
      (match toVal binary16 h.toNat with
       | Val.nan => Val.nan
       | Val.inf s => Val.inf s
       | Val.fin z => Val.fin (z * 2 ^ 125)) := by
  obtain ⟨hs, he, hm⟩ := half_to_float_fields h
  have hb := expField16_lt h.toNat
  have hmb := manField16_lt h.toNat
  have e32 : binary32.expMax = 255 := by decide
  have e16 : binary16.expMax = 31 := by decide
  by_cases h1 : expField binary16 h.toNat = 31
  · unfold toVal
    rw [he, hm, hs, e32, e16]
    by_cases h3 : manField binary16 h.toNat = 0 <;> simp [h1, h3]
  · have hmag := magnitude_half_to_float h h1
    have hne : expField binary32 (half_to_float h).toNat ≠ 255 := by
      rw [he, if_neg h1]
      by_cases h2 : expField binary16 h.toNat = 0
      · rw [if_pos h2]
        by_cases h3 : manField binary16 h.toNat = 0
        · rw [if_pos h3]; decide
        · have := (subnormal_frac_lt _ h3 hmb).1
          rw [if_neg h3]; omega
      · rw [if_neg h2]; omega
    unfold toVal
    rw [e32, e16, hs, hmag, if_neg hne, if_neg h1]
    by_cases h4 : signField binary16 h.toNat = true
    · simp [h4]
    · simp [h4]

/-- Comparing two halves through their widened values is the IEEE-754
comparison of the half values themselves. -/
theorem prec_cmp_eq_fcmp (p : Prec) (x y : p.T) :
    p.cmp x y = fcmp p.fmt (p.bits x) (p.bits y) := by
  cases p
  · show fcmp binary32 (half_to_float x).toNat (half_to_float y).toNat
      = fcmp binary16 x.toNat y.toNat
    unfold fcmp
    rw [toVal_half_to_float, toVal_half_to_float]
    have hpos : (0 : Int) < 2 ^ 125 := by positivity
    cases toVal binary16 x.toNat <;> cases toVal binary16 y.toNat <;>
      simp only [Val.cmp]
    rename_i a b
    have h1 : a * 2 ^ 125 < b * 2 ^ 125 ↔ a < b := mul_lt_mul_right hpos
    have h2 : a * 2 ^ 125 = b * 2 ^ 125 ↔ a = b :=
      ⟨fun h => Int.eq_of_mul_eq_mul_right (ne_of_gt hpos) h, fun h => by rw [h]⟩
    simp only [h1, h2]
  · rfl
  · rfl

/-! ## Closed forms of the kernels -/

theorem FOrdEqual_lane_eq (p : Prec) (x y : p.T) :
    FOrdEqual_lane p x y = some (if opEq p x y then -1 else 0) :=
  storeT_ofInt_neg_bool p _

theorem FUnordNotEqual_lane_eq (p : Prec) (x y : p.T) :
    FUnordNotEqual_lane p x y = some (if opNe p x y then -1 else 0) :=
  storeT_ofInt_neg_bool p _

theorem FOrdGreaterThan_lane_eq (p : Prec) (x y : p.T) :
    FOrdGreaterThan_lane p x y = some (if opGt p x y then -1 else 0) :=
  storeT_ofInt_neg_bool p _

theorem FOrdGreaterThanEqual_lane_eq (p : Prec) (x y : p.T) :
    FOrdGreaterThanEqual_lane p x y = some (if opGe p x y then -1 else 0) :=
  storeT_ofInt_neg_bool p _

theorem FOrdLessThanEqual_lane_eq (p : Prec) (x y : p.T) :
    FOrdLessThanEqual_lane p x y = some (if opLe p x y then -1 else 0) :=
  storeT_ofInt_neg_bool p _

theorem LessOrGreater_lane_eq (p : Prec) (x y : p.T) :
    LessOrGreater_lane p x y = some (if (opLt p x y || opGt p x y) then -1 else 0) :=
  storeT_ofInt_neg_bool p _

theorem Ordered_lane_eq (p : Prec) (x y : p.T) :
    Ordered_lane p x y = some (if
      (!std_isunordered p.castPrec (cast_if_host_half p x) (cast_if_host_half p y))
      then -1 else 0) :=
  storeT_ofInt_neg_bool p _

theorem Unordered_lane_eq (p : Prec) (x y : p.T) :
    Unordered_lane p x y = some (if
      std_isunordered p.castPrec (cast_if_host_half p x) (cast_if_host_half p y)
      then -1 else 0) :=
  storeT_neg_ofInt_bool p _

theorem vFOrdLessThan_eq (p : Prec) (x y : p.T) :
    __vFOrdLessThan p x y = (if opLt p x y then -1 else 0) := by
  cases p
  · exact (wrapS_neg_bool _).1
  · exact (wrapS_neg_bool _).2.2.2.2
  · exact (wrapS_neg_bool _).2.1

theorem FOrdLessThan_eq (p : Prec) (x y : p.T) :
    FOrdLessThan p x y = (if opLt p x y then 1 else 0) := rfl

theorem FOrdEqual_eq (p : Prec) (x y : p.T) :
    FOrdEqual p x y = some (if opEq p x y then 1 else 0) :=
  toInt32_ofInt_bool p _

theorem FUnordNotEqual_eq (p : Prec) (x y : p.T) :
    FUnordNotEqual p x y = some (if opNe p x y then 1 else 0) :=
  toInt32_ofInt_bool p _

theorem FOrdGreaterThan_eq (p : Prec) (x y : p.T) :
    FOrdGreaterThan p x y = some (if opGt p x y then 1 else 0) :=
  toInt32_ofInt_bool p _

theorem FOrdGreaterThanEqual_eq (p : Prec) (x y : p.T) :
    FOrdGreaterThanEqual p x y = some (if opGe p x y then 1 else 0) :=
  toInt32_ofInt_bool p _

theorem FOrdLessThanEqual_eq (p : Prec) (x y : p.T) :
    FOrdLessThanEqual p x y = some (if opLe p x y then 1 else 0) :=
  toInt32_ofInt_bool p _

theorem LessOrGreater_eq (p : Prec) (x y : p.T) :
    LessOrGreater p x y = some (if (opLt p x y || opGt p x y) then 1 else 0) :=
  toInt32_ofInt_bool p _

theorem Unordered_eq (p : Prec) (x y : p.T) :
    Unordered p x y = some (if
      std_isunordered p.castPrec (cast_if_host_half p x) (cast_if_host_half p y)
      then 1 else 0) :=
  toInt32_ofInt_bool p _

theorem Ordered_eq (p : Prec) (x y : p.T) :
    Ordered p x y = some (if
      (!std_isunordered p.castPrec (cast_if_host_half p x) (cast_if_host_half p y))
      then -1 else 0) :=
  toInt32_ofInt_neg_bool p _

/-- The unary lane kernels are the negated scalar kernels. -/
theorem unary_lane_eq (p : Prec) (x : p.T) :
    __vIsFinite p x = (if IsFinite p x = 1 then -1 else 0)
    ∧ __vIsInf p x = (if IsInf p x = 1 then -1 else 0)
    ∧ __vIsNan p x = (if IsNan p x = 1 then -1 else 0)
    ∧ __vIsNormal p x = (if IsNormal p x = 1 then -1 else 0)
    ∧ __vSignBitSet p x = (if SignBitSet p x = 1 then -1 else 0) := by
  have key : ∀ b : Bool, (if boolToInt b = 1 then (-1 : Int) else 0) = (if b then -1 else 0) := by
    intro b; cases b <;> decide
  cases p
  · simp only [__vIsFinite, __vIsInf, __vIsNan, __vIsNormal, __vSignBitSet, IsFinite, IsInf,
      IsNan, IsNormal, SignBitSet, key]
    exact ⟨(wrapS_neg_bool _).1, (wrapS_neg_bool _).2.2.2.1, (wrapS_neg_bool _).2.2.2.1,
      (wrapS_neg_bool _).2.2.2.1, (wrapS_neg_bool _).2.2.2.1⟩
  · simp only [__vIsFinite, __vIsInf, __vIsNan, __vIsNormal, __vSignBitSet, IsFinite, IsInf,
      IsNan, IsNormal, SignBitSet, key]
    exact ⟨(wrapS_neg_bool _).2.2.2.2, (wrapS_neg_bool _).2.2.2.2, (wrapS_neg_bool _).2.2.2.2,
      (wrapS_neg_bool _).2.2.2.2, (wrapS_neg_bool _).2.2.2.2⟩
  · simp only [__vIsFinite, __vIsInf, __vIsNan, __vIsNormal, __vSignBitSet, IsFinite, IsInf,
      IsNan, IsNormal, SignBitSet, key]
    exact ⟨(wrapS_neg_bool _).2.2.1, (wrapS_neg_bool _).2.2.1, (wrapS_neg_bool _).2.2.1,
      (wrapS_neg_bool _).2.2.1, (wrapS_neg_bool _).2.2.1⟩

theorem isMask_ite_prop (c : Prop) [Decidable c] : IsMask (some (if c then -1 else 0)) := by
  by_cases h : c
  · rw [if_pos h]; exact Or.inr rfl
  · rw [if_neg h]; exact Or.inl rfl

/-- The unordered test on the operands after `cast_if_host_half` is the NaN
test on the operands as stored. -/
theorem isunordered_cast (p : Prec) (x y : p.T) :
    std_isunordered p.castPrec (cast_if_host_half p x) (cast_if_host_half p y)
      = (std_isnan p x || std_isnan p y) := by
  cases p
  · show (isnanF binary32 (half_to_float x).toNat || isnanF binary32 (half_to_float y).toNat)
      = (isnanF binary16 x.toNat || isnanF binary16 y.toNat)
    rw [isnan_half_to_float, isnan_half_to_float]
  · rfl
  · rfl

theorem IsNan_eq (p : Prec) (x : p.T) : IsNan p x = (if std_isnan p x then 1 else 0) := by
  cases p
  · show boolToInt (isnanF binary32 (half_to_float x).toNat) = _
    rw [isnan_half_to_float]; rfl
  · rfl
  · rfl

theorem ite_one_zero_eq_one (b : Bool) :
    (some (if b then (1 : Int) else 0) = some 1 ↔ b = true)
    ∧ (some (if b then (1 : Int) else 0) = some 0 ↔ b = false)
    ∧ (some (if b then (-1 : Int) else 0) = some (-1) ↔ b = true)
    ∧ (some (if b then (-1 : Int) else 0) = some 0 ↔ b = false) := by
  cases b <;> decide

/-- Every predicate but `Ordered` has a lane form that re-encodes its scalar
form: all bits set exactly when the scalar kernel returns 1, all bits clear
exactly when it returns 0. -/
theorem lane_reencodes_scalar_but_Ordered (p : Prec) (x y : p.T) :
    ((FOrdEqual_lane p x y = some (-1) ↔ FOrdEqual p x y = some 1)
      ∧ (FOrdEqual_lane p x y = some 0 ↔ FOrdEqual p x y = some 0))
    ∧ ((FUnordNotEqual_lane p x y = some (-1) ↔ FUnordNotEqual p x y = some 1)
      ∧ (FUnordNotEqual_lane p x y = some 0 ↔ FUnordNotEqual p x y = some 0))
    ∧ ((FOrdGreaterThan_lane p x y = some (-1) ↔ FOrdGreaterThan p x y = some 1)
      ∧ (FOrdGreaterThan_lane p x y = some 0 ↔ FOrdGreaterThan p x y = some 0))
    ∧ ((FOrdGreaterThanEqual_lane p x y = some (-1) ↔ FOrdGreaterThanEqual p x y = some 1)
      ∧ (FOrdGreaterThanEqual_lane p x y = some 0 ↔ FOrdGreaterThanEqual p x y = some 0))
    ∧ ((FOrdLessThan_lane p x y = some (-1) ↔ FOrdLessThan p x y = 1)
      ∧ (FOrdLessThan_lane p x y = some 0 ↔ FOrdLessThan p x y = 0))
    ∧ ((FOrdLessThanEqual_lane p x y = some (-1) ↔ FOrdLessThanEqual p x y = some 1)
      ∧ (FOrdLessThanEqual_lane p x y = some 0 ↔ FOrdLessThanEqual p x y = some 0))
    ∧ ((LessOrGreater_lane p x y = some (-1) ↔ LessOrGreater p x y = some 1)
      ∧ (LessOrGreater_lane p x y = some 0 ↔ LessOrGreater p x y = some 0))
    ∧ ((Unordered_lane p x y = some (-1) ↔ Unordered p x y = some 1)
      ∧ (Unordered_lane p x y = some 0 ↔ Unordered p x y = some 0))
    ∧ ((IsFinite_lane p x = some (-1) ↔ IsFinite p x = 1)
      ∧ (IsFinite_lane p x = some 0 ↔ IsFinite p x = 0))
    ∧ ((IsInf_lane p x = some (-1) ↔ IsInf p x = 1)
      ∧ (IsInf_lane p x = some 0 ↔ IsInf p x = 0))
    ∧ ((IsNan_lane p x = some (-1) ↔ IsNan p x = 1)
      ∧ (IsNan_lane p x = some 0 ↔ IsNan p x = 0))
    ∧ ((IsNormal_lane p x = some (-1) ↔ IsNormal p x = 1)
      ∧ (IsNormal_lane p x = some 0 ↔ IsNormal p x = 0))
    ∧ ((SignBitSet_lane p x = some (-1) ↔ SignBitSet p x = 1)
      ∧ (SignBitSet_lane p x = some 0 ↔ SignBitSet p x = 0)) := by
  have hb : ∀ b : Bool,
      ((some (if b then (-1 : Int) else 0) = some (-1) ↔ some (if b then (1 : Int) else 0) = some 1)
      ∧ (some (if b then (-1 : Int) else 0) = some 0 ↔ some (if b then (1 : Int) else 0) = some 0))
      := by
    intro b; cases b <;> decide
  have hi : ∀ b : Bool,
      ((some (if b then (-1 : Int) else 0) = some (-1) ↔ (if b then (1 : Int) else 0) = 1)
      ∧ (some (if b then (-1 : Int) else 0) = some 0 ↔ (if b then (1 : Int) else 0) = 0)) := by
    intro b; cases b <;> decide
  have hu : ∀ b : Bool,
      ((some (if boolToInt b = 1 then (-1 : Int) else 0) = some (-1) ↔ boolToInt b = 1)
      ∧ (some (if boolToInt b = 1 then (-1 : Int) else 0) = some 0 ↔ boolToInt b = 0)) := by
    intro b; cases b <;> decide
  obtain ⟨u1, u2, u3, u4, u5⟩ := unary_lane_eq p x
  rw [FOrdEqual_lane_eq, FUnordNotEqual_lane_eq, FOrdGreaterThan_lane_eq,
    FOrdGreaterThanEqual_lane_eq, FOrdLessThanEqual_lane_eq, LessOrGreater_lane_eq,
    Unordered_lane_eq, FOrdEqual_eq, FUnordNotEqual_eq, FOrdGreaterThan_eq,
    FOrdGreaterThanEqual_eq, FOrdLessThanEqual_eq, LessOrGreater_eq, Unordered_eq,
    FOrdLessThan_eq]
  unfold FOrdLessThan_lane IsFinite_lane IsInf_lane IsNan_lane IsNormal_lane SignBitSet_lane
  rw [vFOrdLessThan_eq, u1, u2, u3, u4, u5]
  refine ⟨hb _, hb _, hb _, hb _, hi _, hb _, hb _, hb _, ?_, ?_, ?_, ?_, ?_⟩
  · cases p <;> exact hu _
  · cases p <;> exact hu _
  · cases p <;> exact hu _
  · cases p <;> exact hu _
  · cases p <;> exact hu _

theorem val_cmp_self (v : Val) : v.cmp v = none ∨ v.cmp v = some Ordering.eq := by
  cases v <;> simp [Val.cmp]

theorem prec_cmp_self (p : Prec) (x : p.T) :
    p.cmp x x = none ∨ p.cmp x x = some Ordering.eq := by
  cases p <;> exact val_cmp_self _

/-- Scalar `IsNormal` on a half tests the widened value: it holds for every
finite nonzero half, the subnormal ones included. -/
theorem IsNormal_half_eq (h : cl_half) :
    IsNormal Prec.half h
      = (if expField binary16 h.toNat ≠ 31
            ∧ (expField binary16 h.toNat ≠ 0 ∨ manField binary16 h.toNat ≠ 0) then 1 else 0) := by
  obtain ⟨_, he, _⟩ := half_to_float_fields h
  have hb := expField16_lt h.toNat
  have hmb := manField16_lt h.toNat
  have e32 : binary32.expMax = 255 := by decide
  show boolToInt (isnormalF binary32 (half_to_float h).toNat) = _
  unfold isnormalF
  rw [he, e32]
  by_cases h1 : expField binary16 h.toNat = 31
  · simp [h1, boolToInt]
  · by_cases h2 : expField binary16 h.toNat = 0
    · by_cases h3 : manField binary16 h.toNat = 0
      · simp [h1, h2, h3, boolToInt]
      · have := (subnormal_frac_lt _ h3 hmb).1
        have h4 : ¬ (103 + ilog2 (manField binary16 h.toNat) = 255) := by omega
        simp [h1, h2, h3, h4, boolToInt]
    · have h4 : ¬ (expField binary16 h.toNat + 112 = 255) := by omega
      simp [h1, h2, h4, boolToInt]

/-! ## Claims -/

/-- C1: every lane predicate kernel, in each of the three precisions and on
every input, stores either 0 or -1 (all bits set) in its integer mask lane. -/
theorem lane_results_are_masks (p : Prec) (x y : p.T) :
    IsMask (FOrdEqual_lane p x y) ∧ IsMask (FUnordNotEqual_lane p x y)
    ∧ IsMask (FOrdGreaterThan_lane p x y) ∧ IsMask (FOrdGreaterThanEqual_lane p x y)
    ∧ IsMask (FOrdLessThan_lane p x y) ∧ IsMask (FOrdLessThanEqual_lane p x y)
    ∧ IsMask (LessOrGreater_lane p x y) ∧ IsMask (Ordered_lane p x y)
    ∧ IsMask (Unordered_lane p x y) ∧ IsMask (IsFinite_lane p x)
    ∧ IsMask (IsInf_lane p x) ∧ IsMask (IsNan_lane p x)
    ∧ IsMask (IsNormal_lane p x) ∧ IsMask (SignBitSet_lane p x) := by
  obtain ⟨u1, u2, u3, u4, u5⟩ := unary_lane_eq p x
  rw [FOrdEqual_lane_eq, FUnordNotEqual_lane_eq, FOrdGreaterThan_lane_eq,
    FOrdGreaterThanEqual_lane_eq, FOrdLessThanEqual_lane_eq, LessOrGreater_lane_eq,
    Ordered_lane_eq, Unordered_lane_eq]
  unfold FOrdLessThan_lane IsFinite_lane IsInf_lane IsNan_lane IsNormal_lane SignBitSet_lane
  rw [vFOrdLessThan_eq, u1, u2, u3, u4, u5]
  exact ⟨isMask_ite_prop _, isMask_ite_prop _, isMask_ite_prop _, isMask_ite_prop _,
    isMask_ite_prop _, isMask_ite_prop _, isMask_ite_prop _, isMask_ite_prop _,
    isMask_ite_prop _, isMask_ite_prop _, isMask_ite_prop _, isMask_ite_prop _,
    isMask_ite_prop _, isMask_ite_prop _⟩

/-- C2: the scalar `Ordered` kernel is not the 0/1 form that its lane kernel
re-encodes.  On the single-precision operands 1.0 and 2.0 the lane form stores
all bits set, yet the scalar kernel returns -1 where the claim requires 1. -/
theorem Ordered_scalar_not_reencoded :
    Ordered_lane Prec.single 0x3F800000#32 0x40000000#32 = some (-1)
    ∧ Ordered Prec.single 0x3F800000#32 0x40000000#32 = some (-1)
    ∧ Ordered Prec.single 0x3F800000#32 0x40000000#32 ≠ some 1 := by
  decide!

/-- C3: the scalar `Ordered` kernel returns -1, not 1, when neither operand is
a NaN, and 0 when an operand is a NaN, in every precision. -/
theorem Ordered_scalar_value :
    (∀ (p : Prec) (x y : p.T),
      Ordered p x y = some (if (std_isnan p x || std_isnan p y) then 0 else -1))
    ∧ Ordered Prec.double 0x0000000000000000#64 0x0000000000000000#64 = some (-1) := by
  refine ⟨?_, by decide!⟩
  intro p x y
  rw [Ordered_eq, isunordered_cast]
  cases (std_isnan p x || std_isnan p y) <;> rfl

/-- C4: on the smallest positive half value, the subnormal `2 ^ (-24)` with
bit pattern `0x0001`, scalar `IsNormal` returns 1 and the lane form stores all
bits set, although the value is not a normal half-precision number. -/
theorem IsNormal_half_subnormal :
    std_isnormal Prec.half 0x0001#16 = false
    ∧ half_to_float 0x0001#16 = 0x33800000#32
    ∧ std_isnormal Prec.single (cast_if_host_half Prec.half 0x0001#16) = true
    ∧ IsNormal Prec.half 0x0001#16 = 1
    ∧ IsNormal_lane Prec.half 0x0001#16 = some (-1) := by
  decide!

/-- C5: for a NaN `x` of any precision, sign and payload, `IsNan(x) == 1`,
`Ordered(x, x) == 0`, `Unordered(x, x) == 1`, `FOrdEqual(x, x) == 0` and
`FUnordNotEqual(x, x) == 1`. -/
theorem nan_scalar_kernels (p : Prec) (x : p.T) (h : std_isnan p x = true) :
    IsNan p x = 1 ∧ Ordered p x x = some 0 ∧ Unordered p x x = some 1
    ∧ FOrdEqual p x x = some 0 ∧ FUnordNotEqual p x x = some 1 := by
  have hc : p.cmp x x = none := (prec_cmp_eq_none p x x).2 (Or.inl h)
  rw [IsNan_eq, Ordered_eq, Unordered_eq, isunordered_cast, FOrdEqual_eq, FUnordNotEqual_eq]
  simp [h, opEq, opNe, hc]

theorem nan_scalar_kernels_witness :
    std_isnan Prec.single 0x7FC00000#32 = true
    ∧ (IsNan Prec.single 0x7FC00000#32 = 1
      ∧ Ordered Prec.single 0x7FC00000#32 0x7FC00000#32 = some 0
      ∧ Unordered Prec.single 0x7FC00000#32 0x7FC00000#32 = some 1
      ∧ FOrdEqual Prec.single 0x7FC00000#32 0x7FC00000#32 = some 0
      ∧ FUnordNotEqual Prec.single 0x7FC00000#32 0x7FC00000#32 = some 1) :=
  ⟨by decide, nan_scalar_kernels Prec.single 0x7FC00000#32 (by decide)⟩

/-- C6: on single-precision lane sequences of equal length, lane
`FOrdLessThan` returns a mask sequence of that length; lane `i` is the lane
kernel applied to `x[i]` and `y[i]` alone, all bits set exactly when
`x[i] < y[i]` in the IEEE-754 ordering and 0 otherwise, so 0 when a lane is a
NaN; and `[1.0, NaN, -0.0, 2.0]` against `[2.0, 1.0, 0.0, 2.0]` yields
`[-1, 0, 0, 0]`. -/
theorem FOrdLessThan_vec_lanes (x y : List cl_float) (h : x.length = y.length) :
    (FOrdLessThan_vec Prec.single x y).length = x.length
    ∧ (∀ (i : Nat) (hx : i < x.length) (hy : i < y.length),
        (FOrdLessThan_vec Prec.single x y)[i]? = some (FOrdLessThan_lane Prec.single x[i] y[i])
        ∧ (FOrdLessThan_lane Prec.single x[i] y[i] = some (-1)
            ↔ (toVal binary32 x[i].toNat).cmp (toVal binary32 y[i].toNat) = some Ordering.lt)
        ∧ (FOrdLessThan_lane Prec.single x[i] y[i] = some 0
            ↔ (toVal binary32 x[i].toNat).cmp (toVal binary32 y[i].toNat) ≠ some Ordering.lt)
        ∧ (isnanF binary32 x[i].toNat = true ∨ isnanF binary32 y[i].toNat = true
            → FOrdLessThan_lane Prec.single x[i] y[i] = some 0))
    ∧ FOrdLessThan_vec Prec.single
        [0x3F800000#32, 0x7FC00000#32, 0x80000000#32, 0x40000000#32]
        [0x40000000#32, 0x3F800000#32, 0x00000000#32, 0x40000000#32]
        = [some (-1), some 0, some 0, some 0] := by
  refine ⟨?_, ?_, by decide!⟩
  · simp [FOrdLessThan_vec, MAKE_1V_2V_FUNC, h]
  · intro i hx hy
    have hl : FOrdLessThan_lane Prec.single x[i] y[i]
        = some (if opLt Prec.single x[i] y[i] then -1 else 0) := by
      unfold FOrdLessThan_lane; rw [vFOrdLessThan_eq]
    have hop : opLt Prec.single x[i] y[i]
        = decide ((toVal binary32 x[i].toNat).cmp (toVal binary32 y[i].toNat)
            = some Ordering.lt) := rfl
    refine ⟨?_, ?_, ?_, ?_⟩
    · simp [FOrdLessThan_vec, MAKE_1V_2V_FUNC, List.getElem?_zipWith, hx, hy,
        FOrdLessThan_lane]
    · rw [hl, hop]
      by_cases hc : (toVal binary32 x[i].toNat).cmp (toVal binary32 y[i].toNat)
          = some Ordering.lt <;> simp [hc]
    · rw [hl, hop]
      by_cases hc : (toVal binary32 x[i].toNat).cmp (toVal binary32 y[i].toNat)
          = some Ordering.lt <;> simp [hc]
    · intro hn
      have hnone := (fcmp_eq_none binary32 x[i].toNat y[i].toNat).2 hn
      unfold fcmp at hnone
      rw [hl, hop, hnone]
      simp

theorem FOrdLessThan_vec_lanes_witness :
    [0x3F800000#32, 0x7FC00000#32].length = [0x40000000#32, 0x3F800000#32].length
    ∧ (FOrdLessThan_vec Prec.single [0x3F800000#32, 0x7FC00000#32]
        [0x40000000#32, 0x3F800000#32]).length
        = [0x3F800000#32, 0x7FC00000#32].length :=
  ⟨rfl, (FOrdLessThan_vec_lanes [0x3F800000#32, 0x7FC00000#32]
    [0x40000000#32, 0x3F800000#32] rfl).1⟩

/-- C7: when `x` or `y` is a NaN, each of `FOrdGreaterThan`,
`FOrdGreaterThanEqual`, `FOrdLessThan` and `FOrdLessThanEqual` returns 0 in
its scalar form and an all-zero mask in its lane form, in every precision. -/
theorem ordered_comparisons_nan (p : Prec) (x y : p.T)
    (h : std_isnan p x = true ∨ std_isnan p y = true) :
    FOrdGreaterThan p x y = some 0 ∧ FOrdGreaterThanEqual p x y = some 0
    ∧ FOrdLessThan p x y = 0 ∧ FOrdLessThanEqual p x y = some 0
    ∧ FOrdGreaterThan_lane p x y = some 0 ∧ FOrdGreaterThanEqual_lane p x y = some 0
    ∧ FOrdLessThan_lane p x y = some 0 ∧ FOrdLessThanEqual_lane p x y = some 0 := by
  have hc : p.cmp x y = none := (prec_cmp_eq_none p x y).2 h
  rw [FOrdGreaterThan_eq, FOrdGreaterThanEqual_eq, FOrdLessThan_eq, FOrdLessThanEqual_eq,
    FOrdGreaterThan_lane_eq, FOrdGreaterThanEqual_lane_eq, FOrdLessThanEqual_lane_eq]
  unfold FOrdLessThan_lane
  rw [vFOrdLessThan_eq]
  simp [opGt, opGe, opLt, opLe, hc]

theorem ordered_comparisons_nan_witness :
    (std_isnan Prec.double 0x7FF8000000000000#64 = true
      ∨ std_isnan Prec.double 0x3FF0000000000000#64 = true)
    ∧ FOrdGreaterThanEqual Prec.double 0x7FF8000000000000#64 0x3FF0000000000000#64 = some 0 :=
  ⟨Or.inl (by decide),
    (ordered_comparisons_nan Prec.double 0x7FF8000000000000#64 0x3FF0000000000000#64
      (Or.inl (by decide))).2.1⟩

/-- C8: scalar `Unordered(x, y)` returns 1 iff `x` or `y` is a NaN, that is
iff `IsNan(x) == 1` or `IsNan(y) == 1`, and 0 otherwise; it is the NaN test
of `std::isunordered` on the operands after `cast_if_host_half`. -/
theorem Unordered_iff_nan (p : Prec) (x y : p.T) :
    Unordered p x y = some (if (std_isnan p x || std_isnan p y) then 1 else 0)
    ∧ (Unordered p x y = some 1 ↔ (std_isnan p x = true ∨ std_isnan p y = true))
    ∧ (Unordered p x y = some 1 ↔ (IsNan p x = 1 ∨ IsNan p y = 1))
    ∧ (Unordered p x y = some 0 ↔ ¬ (std_isnan p x = true ∨ std_isnan p y = true))
    ∧ Unordered p x y = p.toInt 32 (p.ofInt (boolToInt
        (std_isnan p.castPrec (cast_if_host_half p x)
          || std_isnan p.castPrec (cast_if_host_half p y)))) := by
  have h1 : Unordered p x y = some (if (std_isnan p x || std_isnan p y) then 1 else 0) := by
    rw [Unordered_eq, isunordered_cast]
  refine ⟨h1, ?_, ?_, ?_, rfl⟩
  · rw [h1]; cases std_isnan p x <;> cases std_isnan p y <;> simp
  · rw [h1, IsNan_eq, IsNan_eq]; cases std_isnan p x <;> cases std_isnan p y <;> simp
  · rw [h1]; cases std_isnan p x <;> cases std_isnan p y <;> simp

/-- C9: when neither `x` nor `y` is a NaN, exactly one of scalar
`FOrdLessThan(x, y)`, `FOrdEqual(x, y)`, `FOrdGreaterThan(x, y)` is 1 and the
other two are 0, in every precision. -/
theorem ordered_trichotomy (p : Prec) (x y : p.T)
    (hx : std_isnan p x = false) (hy : std_isnan p y = false) :
    (FOrdLessThan p x y = 1 ∧ FOrdEqual p x y = some 0 ∧ FOrdGreaterThan p x y = some 0)
    ∨ (FOrdLessThan p x y = 0 ∧ FOrdEqual p x y = some 1 ∧ FOrdGreaterThan p x y = some 0)
    ∨ (FOrdLessThan p x y = 0 ∧ FOrdEqual p x y = some 0 ∧ FOrdGreaterThan p x y = some 1) := by
  have hne : p.cmp x y ≠ none := by
    intro hc
    rcases (prec_cmp_eq_none p x y).1 hc with h | h
    · rw [hx] at h; exact Bool.noConfusion h
    · rw [hy] at h; exact Bool.noConfusion h
  rw [FOrdLessThan_eq, FOrdEqual_eq, FOrdGreaterThan_eq]
  unfold opLt opEq opGt
  cases hc : p.cmp x y with
  | none => exact absurd hc hne
  | some o => cases o <;> simp

theorem ordered_trichotomy_witness :
    std_isnan Prec.half 0xFC00#16 = false ∧ std_isnan Prec.half 0x8000#16 = false
    ∧ ((FOrdLessThan Prec.half 0xFC00#16 0x8000#16 = 1
        ∧ FOrdEqual Prec.half 0xFC00#16 0x8000#16 = some 0
        ∧ FOrdGreaterThan Prec.half 0xFC00#16 0x8000#16 = some 0)
      ∨ (FOrdLessThan Prec.half 0xFC00#16 0x8000#16 = 0
        ∧ FOrdEqual Prec.half 0xFC00#16 0x8000#16 = some 1
        ∧ FOrdGreaterThan Prec.half 0xFC00#16 0x8000#16 = some 0)
      ∨ (FOrdLessThan Prec.half 0xFC00#16 0x8000#16 = 0
        ∧ FOrdEqual Prec.half 0xFC00#16 0x8000#16 = some 0
        ∧ FOrdGreaterThan Prec.half 0xFC00#16 0x8000#16 = some 1)) :=
  ⟨by decide, by decide,
    ordered_trichotomy Prec.half 0xFC00#16 0x8000#16 (by decide) (by decide)⟩

/-- C10: scalar `LessOrGreater(x, y)` returns 1 iff `FOrdLessThan(x, y) == 1`
or `FOrdGreaterThan(x, y) == 1`, and 0 otherwise; so it is 0 whenever
`x == y`, also for zeros of opposite sign, and whenever an operand is a
NaN. -/
theorem LessOrGreater_iff (p : Prec) (x y : p.T) :
    (LessOrGreater p x y = some 1
      ↔ (FOrdLessThan p x y = 1 ∨ FOrdGreaterThan p x y = some 1))
    ∧ (LessOrGreater p x y = some 0
      ↔ ¬ (FOrdLessThan p x y = 1 ∨ FOrdGreaterThan p x y = some 1))
    ∧ (FOrdEqual p x y = some 1 → LessOrGreater p x y = some 0)
    ∧ LessOrGreater p x x = some 0
    ∧ (std_isnan p x = true ∨ std_isnan p y = true → LessOrGreater p x y = some 0) := by
  refine ⟨?_, ?_, ?_, ?_, ?_⟩
  · rw [LessOrGreater_eq, FOrdLessThan_eq, FOrdGreaterThan_eq]
    cases opLt p x y <;> cases opGt p x y <;> simp
  · rw [LessOrGreater_eq, FOrdLessThan_eq, FOrdGreaterThan_eq]
    cases opLt p x y <;> cases opGt p x y <;> simp
  · rw [LessOrGreater_eq, FOrdEqual_eq]
    unfold opLt opGt opEq
    cases hc : p.cmp x y with
    | none => simp
    | some o => cases o <;> simp
  · rw [LessOrGreater_eq]
    unfold opLt opGt
    rcases prec_cmp_self p x with hc | hc <;> simp [hc]
  · intro h
    have hc : p.cmp x y = none := (prec_cmp_eq_none p x y).2 h
    rw [LessOrGreater_eq]
    simp [opLt, opGt, hc]

theorem LessOrGreater_iff_witness :
    FOrdEqual Prec.single 0x00000000#32 0x80000000#32 = some 1
    ∧ LessOrGreater Prec.single 0x00000000#32 0x80000000#32 = some 0 :=
  ⟨by decide!,
    (LessOrGreater_iff Prec.single 0x00000000#32 0x80000000#32).2.2.1 (by decide!)⟩

/-! ## Lane triples, reductions and the top bit -/

theorem MAKE_1V_2V_3V_length {α β γ δ : Type} (call : α → β → γ → δ) :
    ∀ (x : List α) (y : List β) (z : List γ), y.length = x.length → z.length = x.length →
      (MAKE_1V_2V_3V call x y z).length = x.length := by
  intro x
  induction x with
  | nil => intro y z _ _; cases y <;> cases z <;> rfl
  | cons x0 xs ih =>
    intro y z hy hz
    cases y with
    | nil => simp at hy
    | cons y0 ys =>
      cases z with
      | nil => simp at hz
      | cons z0 zs =>
        simp only [MAKE_1V_2V_3V, List.length_cons]
        rw [ih ys zs (by simpa using hy) (by simpa using hz)]

theorem MAKE_1V_2V_3V_getElem {α β γ δ : Type} (call : α → β → γ → δ) :
    ∀ (x : List α) (y : List β) (z : List γ) (i : Nat)
      (hx : i < x.length) (hy : i < y.length) (hz : i < z.length),
      (MAKE_1V_2V_3V call x y z)[i]? = some (call x[i] y[i] z[i]) := by
  intro x
  induction x with
  | nil => intro y z i hx; simp at hx
  | cons x0 xs ih =>
    intro y z i hx hy hz
    cases y with
    | nil => simp at hy
    | cons y0 ys =>
      cases z with
      | nil => simp at hz
      | cons z0 zs =>
        cases i with
        | zero => simp [MAKE_1V_2V_3V]
        | succ j =>
          simp only [MAKE_1V_2V_3V, List.getElem?_cons_succ, List.getElem_cons_succ]
          exact ih ys zs j (by simpa using hx) (by simpa using hy) (by simpa using hz)

/-- The modelled top-bit test is the most significant bit of the word. -/
theorem msbIsSet_eq_msb {w : Nat} (x : BitVec w) : msbIsSet x = x.msb := by
  rw [BitVec.msb_eq_getLsbD_last]; rfl

theorem MAKE_SR_1V_OR_eq {α : Type} (call : α → Int) (x : List α) :
    MAKE_SR_1V_OR call x = boolToInt (x.any (fun v => decide (call v ≠ 0))) := by
  induction x with
  | nil => rfl
  | cons x0 xs ih =>
    simp only [MAKE_SR_1V_OR, List.any_cons, ih]
    cases xs.any (fun v => decide (call v ≠ 0)) <;> simp [boolToInt]

theorem MAKE_SR_1V_AND_eq {α : Type} (call : α → Int) (x : List α) :
    MAKE_SR_1V_AND call x = boolToInt (x.all (fun v => decide (call v ≠ 0))) := by
  induction x with
  | nil => rfl
  | cons x0 xs ih =>
    simp only [MAKE_SR_1V_AND, List.all_cons, ih]
    cases xs.all (fun v => decide (call v ≠ 0)) <;> simp [boolToInt]

theorem Any_eq {w : Nat} (x : List (BitVec w)) :
    Any x = boolToInt (x.any (fun v => v.msb)) := by
  unfold Any
  rw [MAKE_SR_1V_OR_eq]
  congr 2
  funext v
  simp only [__Any, msbIsSet_eq_msb]
  cases v.msb <;> simp [boolToInt]

theorem All_eq {w : Nat} (x : List (BitVec w)) :
    All x = boolToInt (x.all (fun v => v.msb)) := by
  unfold All
  rw [MAKE_SR_1V_AND_eq]
  congr 2
  funext v
  simp only [__All, msbIsSet_eq_msb]
  cases v.msb <;> simp [boolToInt]

theorem boolToInt_eq_one (b : Bool) : (boolToInt b = 1 ↔ b = true) ∧ (boolToInt b = 0 ↔ b = false) := by
  cases b <;> decide

theorem top_bit_only (t : IntTy) :
    (BitVec.ofNat t.bits (2 ^ (t.bits - 1))).msb = true
    ∧ (BitVec.ofNat t.bits (2 ^ (t.bits - 1) - 1)).msb = false
    ∧ (BitVec.ofNat t.bits 1).msb = false
    ∧ BitVec.ofNat t.bits 1 ≠ 0
    ∧ (BitVec.allOnes t.bits).msb = true
    ∧ BitVec.allOnes t.bits ≠ 0 := by
  cases t <;> decide

/-- C11: lane `Select` over condition lanes `c` and value lanes `b`, `a` of
equal length returns `b[i]` where the most significant bit of `c[i]` is set
and `a[i]` elsewhere, whatever the other bits of `c[i]`: a lane with only the
top bit set selects `b[i]`, a lane with every bit but the top one set selects
`a[i]`.  This holds for each of the eight condition lane types. -/
theorem Select_vec_lanes (t : IntTy) {α : Type} (cnd : List t.T) (b a : List α)
    (hb : b.length = cnd.length) (ha : a.length = cnd.length) :
    (Select_vec cnd b a).length = cnd.length
    ∧ (∀ (i : Nat) (hc : i < cnd.length) (hb1 : i < b.length) (ha1 : i < a.length),
        (Select_vec cnd b a)[i]? = some (if (cnd[i]).msb = true then b[i] else a[i]))
    ∧ (∀ (x y : α),
        Select_vec [BitVec.ofNat t.bits (2 ^ (t.bits - 1))] [x] [y] = [x]
        ∧ Select_vec [BitVec.ofNat t.bits (2 ^ (t.bits - 1) - 1)] [x] [y] = [y]) := by
  refine ⟨MAKE_1V_2V_3V_length _ cnd b a hb ha, ?_, ?_⟩
  · intro i hc hb1 ha1
    unfold Select_vec
    rw [MAKE_1V_2V_3V_getElem _ cnd b a i hc hb1 ha1]
    simp only [__vSelect, msbIsSet_eq_msb]
  · intro x y
    obtain ⟨h1, h2, _⟩ := top_bit_only t
    simp only [Select_vec, MAKE_1V_2V_3V, __vSelect, msbIsSet_eq_msb, h1, h2]
    simp

theorem Select_vec_lanes_witness :
    [0x40000000#32, 0x3F800000#32].length = [0x80000000#32, 0x7FFFFFFF#32].length
    ∧ [0x00000000#32, 0x7FC00000#32].length = [0x80000000#32, 0x7FFFFFFF#32].length
    ∧ (Select_vec [0x80000000#32, 0x7FFFFFFF#32] [0x40000000#32, 0x3F800000#32]
        [0x00000000#32, 0x7FC00000#32]).length = [0x80000000#32, 0x7FFFFFFF#32].length :=
  ⟨rfl, rfl, (Select_vec_lanes IntTy.int [0x80000000#32, 0x7FFFFFFF#32]
    [0x40000000#32, 0x3F800000#32] [0x00000000#32, 0x7FC00000#32] rfl rfl).1⟩

/-- C12: scalar `Select(0, b, a)` is `a`, and `Select(c, b, a)` is `b` for
every nonzero condition `c`, also one with the most significant bit clear;
the result is the chosen argument itself. -/
theorem Select_scalar (t : IntTy) {α : Type} (c : t.T) (b a : α) :
    Select c b a = (if c = 0 then a else b)
    ∧ Select (0 : t.T) b a = a
    ∧ (c ≠ 0 → Select c b a = b)
    ∧ ((BitVec.ofNat t.bits 1).msb = false ∧ Select (BitVec.ofNat t.bits 1) b a = b) := by
  obtain ⟨_, _, h3, h4, _⟩ := top_bit_only t
  refine ⟨?_, ?_, ?_, h3, ?_⟩
  · show (if c ≠ 0 then b else a) = _
    by_cases h : c = 0
    · rw [if_neg (not_not.2 h), if_pos h]
    · rw [if_pos h, if_neg h]
  · show (if (0 : t.T) ≠ 0 then b else a) = _
    rw [if_neg (not_not.2 rfl)]
  · intro h
    show (if c ≠ 0 then b else a) = _
    rw [if_pos h]
  · show (if BitVec.ofNat t.bits 1 ≠ 0 then b else a) = _
    rw [if_pos h4]

theorem Select_scalar_witness :
    (0x7F#8 : IntTy.T IntTy.char) ≠ 0
    ∧ Select (0x7F#8 : IntTy.T IntTy.char) (0x3C00#16 : cl_half) (0x4000#16 : cl_half)
        = 0x3C00#16 :=
  ⟨by decide, (Select_scalar IntTy.char (0x7F#8 : IntTy.T IntTy.char) (0x3C00#16 : cl_half)
    (0x4000#16 : cl_half)).2.2.1 (by decide)⟩

/-- C15: on a non-empty sequence of signed integer lanes of 8, 16, 32 or 64
bits, `Any` is 1 iff some lane has its most significant bit set and `All` is
1 iff every lane has, and they are 0 otherwise: both are 0 on all-zero lanes,
both are 1 on lanes that all have the top bit set, and with one such lane
among zero lanes and at least two lanes `Any` is 1 and `All` is 0. -/
theorem Any_All_msb (t : IntTy) (_ht : t.signed = true) (x : List t.T) (hx : x ≠ []) :
    (Any x = 1 ↔ ∃ v ∈ x, v.msb = true)
    ∧ (Any x = 0 ↔ ¬ ∃ v ∈ x, v.msb = true)
    ∧ (All x = 1 ↔ ∀ v ∈ x, v.msb = true)
    ∧ (All x = 0 ↔ ¬ ∀ v ∈ x, v.msb = true)
    ∧ ((∀ v ∈ x, v = 0) → Any x = 0 ∧ All x = 0)
    ∧ ((∀ v ∈ x, v.msb = true) → Any x = 1 ∧ All x = 1)
    ∧ (∀ (m : t.T) (i j : Nat), m.msb = true → 1 ≤ i + j →
        Any (List.replicate i (0 : t.T) ++ m :: List.replicate j (0 : t.T)) = 1
        ∧ All (List.replicate i (0 : t.T) ++ m :: List.replicate j (0 : t.T)) = 0) := by
  have hany : ∀ y : List t.T, (Any y = 1 ↔ ∃ v ∈ y, v.msb = true) := by
    intro y; rw [Any_eq, (boolToInt_eq_one _).1]; simp
  have hany0 : ∀ y : List t.T, (Any y = 0 ↔ ¬ ∃ v ∈ y, v.msb = true) := by
    intro y; rw [Any_eq, (boolToInt_eq_one _).2]; simp
  have hall : ∀ y : List t.T, (All y = 1 ↔ ∀ v ∈ y, v.msb = true) := by
    intro y; rw [All_eq, (boolToInt_eq_one _).1]; simp
  have hall0 : ∀ y : List t.T, (All y = 0 ↔ ¬ ∀ v ∈ y, v.msb = true) := by
    intro y; rw [All_eq, (boolToInt_eq_one _).2]; simp
  refine ⟨hany x, hany0 x, hall x, hall0 x, ?_, ?_, ?_⟩
  · intro hz
    obtain ⟨v0, hv0⟩ := List.exists_mem_of_ne_nil x hx
    constructor
    · rw [hany0]
      rintro ⟨v, hv, hm⟩
      rw [hz v hv] at hm
      simp at hm
    · rw [hall0]
      intro h
      have := h v0 hv0
      rw [hz v0 hv0] at this
      simp at this
  · intro hm
    obtain ⟨v0, hv0⟩ := List.exists_mem_of_ne_nil x hx
    exact ⟨(hany x).2 ⟨v0, hv0, hm v0 hv0⟩, (hall x).2 hm⟩
  · intro m i j hm hij
    constructor
    · rw [hany]
      exact ⟨m, by simp, hm⟩
    · rw [hall0]
      intro h
      have hmem : (0 : t.T) ∈ List.replicate i (0 : t.T) ++ m :: List.replicate j (0 : t.T) := by
        rcases Nat.eq_zero_or_pos i with hi | hi
        · have hj : 0 < j := by omega
          simp [List.mem_replicate]
          right; right; omega
        · simp [List.mem_replicate]
          left; omega
      have := h 0 hmem
      simp at this

theorem Any_All_msb_witness :
    IntTy.signed IntTy.char = true
    ∧ ([0x80#8, 0x00#8] : List (IntTy.T IntTy.char)) ≠ []
    ∧ Any ([0x80#8, 0x00#8] : List (IntTy.T IntTy.char)) = 1
    ∧ All ([0x80#8, 0x00#8] : List (IntTy.T IntTy.char)) = 0 :=
  ⟨rfl, by decide,
    ((Any_All_msb IntTy.char rfl [0x80#8, 0x00#8] (by decide)).1).2
      ⟨0x80#8, by decide, by decide⟩,
    ((Any_All_msb IntTy.char rfl [0x80#8, 0x00#8] (by decide)).2.2.2.1).2
      (fun h => absurd (h 0x00#8 (by decide)) (by decide))⟩

/-- C18: the scalar and the lane discipline of `Select` differ: with the
condition 1, nonzero with the most significant bit clear, and the values
2.0 and 1.0, scalar `Select` returns `b` while lane `Select` on a lane
holding the same condition returns `a`. -/
theorem Select_disciplines_differ :
    (0x40000000#32 : cl_float) ≠ 0x3F800000#32
    ∧ Select (1#32) (0x40000000#32 : cl_float) (0x3F800000#32 : cl_float) = 0x40000000#32
    ∧ Select_vec [1#32] [(0x40000000#32 : cl_float)] [(0x3F800000#32 : cl_float)]
        = [0x3F800000#32]
    ∧ __Select (1#32) (0x40000000#32 : cl_float) (0x3F800000#32 : cl_float)
        ≠ __vSelect (1#32) (0x40000000#32 : cl_float) (0x3F800000#32 : cl_float) := by
  decide

/-! ## Bit merge -/

theorem promote_getLsbD (t : IntTy) (x : t.T) (k : Nat) (hk : k < t.bits) :
    (t.promote x).getLsbD k = x.getLsbD k := by
  cases t <;>
    simp only [IntTy.promote, IntTy.signed, IntTy.promotedBits, IntTy.bits, if_true,
      BitVec.getLsbD_signExtend, BitVec.getLsbD_setWidth, Bool.false_eq_true, if_false] <;>
    simp only [IntTy.bits] at hk <;>
    simp [hk] <;> omega

theorem bitselect_eq (t : IntTy) (a b c : t.T) :
    __bitselect t a b c = (a &&& ~~~ c) ||| (b &&& c) := by
  apply BitVec.eq_of_getLsbD_eq
  intro i
  have hi : (i : Nat) < t.bits := i.isLt
  have hp : (i : Nat) < t.promotedBits := by
    cases t <;> simp only [IntTy.bits] at hi <;> simp only [IntTy.promotedBits] <;> omega
  simp only [__bitselect, IntTy.convert, BitVec.getLsbD_setWidth, BitVec.getLsbD_or,
    BitVec.getLsbD_and, BitVec.getLsbD_not, promote_getLsbD t _ _ hi, hi, hp, decide_True,
    Bool.true_and]

theorem merge_getLsbD {w : Nat} (a b c : BitVec w) (k : Nat) :
    ((a &&& ~~~ c) ||| (b &&& c)).getLsbD k = (if c.getLsbD k then b.getLsbD k else a.getLsbD k) := by
  simp only [BitVec.getLsbD_or, BitVec.getLsbD_and, BitVec.getLsbD_not]
  by_cases hk : k < w
  · cases c.getLsbD k <;> simp [hk]
  · have ha := BitVec.getLsbD_ge a k (by omega)
    have hb := BitVec.getLsbD_ge b k (by omega)
    have hc := BitVec.getLsbD_ge c k (by omega)
    simp [ha, hb, hc]

theorem merge_allOnes {w : Nat} (a b : BitVec w) :
    (a &&& ~~~ (BitVec.allOnes w)) ||| (b &&& BitVec.allOnes w) = b := by
  apply BitVec.eq_of_getLsbD_eq
  intro i
  rw [merge_getLsbD]
  simp

theorem merge_zero {w : Nat} (a b : BitVec w) :
    (a &&& ~~~ (0 : BitVec w)) ||| (b &&& 0) = a := by
  apply BitVec.eq_of_getLsbD_eq
  intro i
  rw [merge_getLsbD]
  simp

theorem mergeBits_eq (p : Prec) (a b c : BitVec p.maskBits) :
    mergeBits p a b c = (a &&& ~~~ c) ||| (b &&& c) := by
  cases p
  · exact bitselect_eq IntTy.ushort a b c
  · rfl
  · rfl

theorem reconstruct_reinterpret (p : Prec) (x : p.T) :
    reconstructFloat p (reinterpretBits p x) = x := by
  cases p <;> rfl

theorem reinterpret_reconstruct (p : Prec) (v : BitVec p.maskBits) :
    reinterpretBits p (reconstructFloat p v) = v := by
  cases p <;> rfl

/-- C13: for each of the eight integer types, bit `k` of `bitselect(a, b, c)`
is bit `k` of `b` where bit `k` of `c` is 1 and bit `k` of `a` where it is 0,
also through the promotion to `int` and the conversion back that the narrow
types undergo; so `bitselect(a, b, allOnes)` is `b` and `bitselect(a, b, 0)`
is `a`. -/
theorem bitselect_bits (t : IntTy) (a b c : t.T) :
    (∀ k : Nat, (bitselect t a b c).getLsbD k
        = (if c.getLsbD k then b.getLsbD k else a.getLsbD k))
    ∧ bitselect t a b c = (a &&& ~~~ c) ||| (b &&& c)
    ∧ bitselect t a b (BitVec.allOnes t.bits) = b
    ∧ bitselect t a b (0 : t.T) = a := by
  refine ⟨?_, bitselect_eq t a b c, ?_, ?_⟩
  · intro k
    show (__bitselect t a b c).getLsbD k = _
    rw [bitselect_eq, merge_getLsbD]
  · show __bitselect t a b (BitVec.allOnes t.bits) = b
    rw [bitselect_eq, merge_allOnes]
  · show __bitselect t a b (0 : t.T) = a
    rw [bitselect_eq, merge_zero]

/-- C14: for half, float and double, the bit pattern of `bitselect(a, b, c)`
is `(bits(a) AND NOT bits(c)) OR (bits(b) AND bits(c))`, where `bits` is the
reinterpretation through the union and reconstructing a value from bits is
its inverse; with all bits of `c` set the result is `b`, with `c` the
all-clear pattern of +0.0 it is `a`. -/
theorem bitselect_genfloat_bits (p : Prec) (a b c : p.T) :
    reinterpretBits p (bitselect_genfloat p a b c)
      = (reinterpretBits p a &&& ~~~ (reinterpretBits p c))
          ||| (reinterpretBits p b &&& reinterpretBits p c)
    ∧ (∀ x : p.T, reconstructFloat p (reinterpretBits p x) = x)
    ∧ (∀ v : BitVec p.maskBits, reinterpretBits p (reconstructFloat p v) = v)
    ∧ bitselect_genfloat p a b (reconstructFloat p (BitVec.allOnes p.maskBits)) = b
    ∧ bitselect_genfloat p a b (reconstructFloat p 0) = a
    ∧ reconstructFloat p 0 = p.ofInt 0 := by
  have key : ∀ a b c : p.T, bitselect_genfloat p a b c
      = reconstructFloat p ((reinterpretBits p a &&& ~~~ (reinterpretBits p c))
          ||| (reinterpretBits p b &&& reinterpretBits p c)) := by
    intro a b c
    show reconstructFloat p (mergeBits p _ _ _) = _
    rw [mergeBits_eq]
    rfl
  refine ⟨?_, reconstruct_reinterpret p, reinterpret_reconstruct p, ?_, ?_, ?_⟩
  · rw [key, reinterpret_reconstruct]
  · rw [key, reinterpret_reconstruct, merge_allOnes, reconstruct_reinterpret]
  · rw [key, reinterpret_reconstruct, merge_zero, reconstruct_reinterpret]
  · cases p <;> decide

/-! ## Sign and class of a value -/

theorem signField_eq_testBit (p : Prec) (x : p.T) :
    signField p.fmt (p.bits x) = (p.bits x).testBit (p.maskBits - 1) := by
  cases p <;> simp only [signField, Nat.testBit_to_div_mod] <;> rfl

theorem SignBitSet_eq (p : Prec) (x : p.T) :
    SignBitSet p x = (if signField p.fmt (p.bits x) then 1 else 0) := by
  cases p
  · show boolToInt (signField binary32 (half_to_float x).toNat) = _
    rw [(half_to_float_fields x).1]; rfl
  · rfl
  · rfl

theorem expField_half_to_float (h : cl_half) :
    (expField binary32 (half_to_float h).toNat = 255 ↔ expField binary16 h.toNat = 31) := by
  obtain ⟨_, he, _⟩ := half_to_float_fields h
  have hb := expField16_lt h.toNat
  have hmb := manField16_lt h.toNat
  rw [he]
  by_cases h1 : expField binary16 h.toNat = 31
  · rw [if_pos h1]; simp [h1]
  · rw [if_neg h1]
    by_cases h2 : expField binary16 h.toNat = 0
    · rw [if_pos h2]
      by_cases h3 : manField binary16 h.toNat = 0
      · rw [if_pos h3]; simp [h1]
      · rw [if_neg h3]
        have := (subnormal_frac_lt _ h3 hmb).1
        constructor
        · intro hh; omega
        · intro hh; exact absurd hh h1
    · rw [if_neg h2]
      constructor
      · intro hh; omega
      · intro hh; exact absurd hh h1

theorem isfinite_half_to_float (h : cl_half) :
    isfiniteF binary32 (half_to_float h).toNat = isfiniteF binary16 h.toNat := by
  have e32 : binary32.expMax = 255 := by decide
  have e16 : binary16.expMax = 31 := by decide
  unfold isfiniteF
  rw [e32, e16]
  have := expField_half_to_float h
  by_cases h1 : expField binary16 h.toNat = 31
  · simp [h1, this.2 h1]
  · have h2 : ¬ expField binary32 (half_to_float h).toNat = 255 := fun hh => h1 (this.1 hh)
    simp [h1, h2]

theorem isinf_eq (f : Format) (n : Nat) :
    isinfF f n = (!isfiniteF f n && !isnanF f n) := by
  unfold isinfF isfiniteF isnanF
  by_cases h1 : expField f n = f.expMax <;> by_cases h2 : manField f n = 0 <;> simp [h1, h2]

theorem isinf_half_to_float (h : cl_half) :
    isinfF binary32 (half_to_float h).toNat = isinfF binary16 h.toNat := by
  rw [isinf_eq, isinf_eq, isfinite_half_to_float, isnan_half_to_float]

theorem toVal_eq_inf (f : Format) (n : Nat) :
    (∃ s, toVal f n = Val.inf s) ↔ isinfF f n = true := by
  unfold toVal isinfF
  by_cases h1 : expField f n = f.expMax <;> by_cases h2 : manField f n = 0 <;>
    by_cases h3 : signField f n = true <;> simp [h1, h2, h3]

theorem toVal_eq_fin (f : Format) (n : Nat) :
    (∃ z, toVal f n = Val.fin z) ↔ isfiniteF f n = true := by
  unfold toVal isfiniteF
  by_cases h1 : expField f n = f.expMax <;> by_cases h2 : manField f n = 0 <;>
    by_cases h3 : signField f n = true <;> simp [h1, h2, h3]

theorem IsInf_eq (p : Prec) (x : p.T) : IsInf p x = (if std_isinf p x then 1 else 0) := by
  cases p
  · show boolToInt (isinfF binary32 (half_to_float x).toNat) = _
    rw [isinf_half_to_float]; rfl
  · rfl
  · rfl

theorem IsFinite_eq (p : Prec) (x : p.T) :
    IsFinite p x = (if std_isfinite p x then 1 else 0) := by
  cases p
  · show boolToInt (isfiniteF binary32 (half_to_float x).toNat) = _
    rw [isfinite_half_to_float]; rfl
  · rfl
  · rfl

/-- C16: scalar `SignBitSet(x)` is 1 iff the top bit of the stored pattern of
`x` is 1, in each precision, a half being widened first: it is 1 on -0.0,
0 on +0.0, and on a NaN it is the stored sign bit. -/
theorem SignBitSet_stored_bit (p : Prec) (x : p.T) :
    SignBitSet p x = (if (p.bits x).testBit (p.maskBits - 1) then 1 else 0)
    ∧ (SignBitSet p x = 1 ↔ (p.bits x).testBit (p.maskBits - 1) = true)
    ∧ SignBitSet p (p.neg (p.ofInt 0)) = 1
    ∧ SignBitSet p (p.ofInt 0) = 0
    ∧ (std_isnan Prec.half 0xFE00#16 = true ∧ SignBitSet Prec.half 0xFE00#16 = 1)
    ∧ (std_isnan Prec.half 0x7E00#16 = true ∧ SignBitSet Prec.half 0x7E00#16 = 0)
    ∧ (std_isnan Prec.single 0xFFC00000#32 = true ∧ SignBitSet Prec.single 0xFFC00000#32 = 1)
    ∧ (std_isnan Prec.double 0xFFF8000000000000#64 = true
        ∧ SignBitSet Prec.double 0xFFF8000000000000#64 = 1) := by
  have h1 : SignBitSet p x = (if (p.bits x).testBit (p.maskBits - 1) then 1 else 0) := by
    rw [SignBitSet_eq, signField_eq_testBit]
  refine ⟨h1, ?_, ?_, ?_, by decide!, by decide!, by decide!, by decide!⟩
  · rw [h1]; cases (p.bits x).testBit (p.maskBits - 1) <;> simp
  · cases p <;> decide!
  · cases p <;> decide!

/-- C17: the scalar classification kernels return 0 or 1 and partition the
values of each precision: `IsNan(x)` is 1 iff `x` is a NaN, `IsInf(x)` is 1
iff `x` is an infinity of either sign, `IsFinite(x)` is 1 iff `x` is neither,
so exactly one of the three is 1, and `IsFinite` and `IsInf` are 0 on a
NaN. -/
theorem classification_partition (p : Prec) (x : p.T) :
    (IsNan p x = 1 ↔ toVal p.fmt (p.bits x) = Val.nan)
    ∧ (IsInf p x = 1 ↔ (toVal p.fmt (p.bits x) = Val.inf false
        ∨ toVal p.fmt (p.bits x) = Val.inf true))
    ∧ (IsFinite p x = 1 ↔ ∃ z, toVal p.fmt (p.bits x) = Val.fin z)
    ∧ (IsNan p x = 0 ∨ IsNan p x = 1)
    ∧ (IsInf p x = 0 ∨ IsInf p x = 1)
    ∧ (IsFinite p x = 0 ∨ IsFinite p x = 1)
    ∧ IsNan p x + IsInf p x + IsFinite p x = 1
    ∧ (IsNan p x = 1 → IsFinite p x = 0 ∧ IsInf p x = 0) := by
  have hn := toVal_eq_nan p.fmt (p.bits x)
  have hi := toVal_eq_inf p.fmt (p.bits x)
  have hf := toVal_eq_fin p.fmt (p.bits x)
  have hie := isinf_eq p.fmt (p.bits x)
  have hne : isnanF p.fmt (p.bits x) = true → isfiniteF p.fmt (p.bits x) = false := by
    unfold isnanF isfiniteF
    by_cases h1 : expField p.fmt (p.bits x) = p.fmt.expMax <;> simp [h1]
  have hi2 : (∃ s, toVal p.fmt (p.bits x) = Val.inf s)
      ↔ (toVal p.fmt (p.bits x) = Val.inf false ∨ toVal p.fmt (p.bits x) = Val.inf true) := by
    constructor
    · rintro ⟨s, hs⟩
      cases s
      · exact Or.inl hs
      · exact Or.inr hs
    · rintro (hs | hs)
      · exact ⟨false, hs⟩
      · exact ⟨true, hs⟩
  rw [← hi2, hn, hi, hf, IsNan_eq, IsInf_eq, IsFinite_eq]
  unfold std_isnan std_isinf std_isfinite
  rw [hie]
  cases h1 : isnanF p.fmt (p.bits x) <;> cases h2 : isfiniteF p.fmt (p.bits x) <;>
    simp
  exact absurd (hne h1) (by simp [h2])

theorem classification_partition_witness :
    IsNan Prec.half 0x7E00#16 = 1
    ∧ IsFinite Prec.half 0x7E00#16 = 0 ∧ IsInf Prec.half 0x7E00#16 = 0 :=
  ⟨by decide!, (classification_partition Prec.half 0x7E00#16).2.2.2.2.2.2.2 (by decide!)⟩

theorem ofInt_mask_msb (p : Prec) :
    (BitVec.ofInt p.maskBits (-1)).msb = true ∧ (BitVec.ofInt p.maskBits 0).msb = false
    ∧ BitVec.ofInt p.maskBits (-1) = BitVec.allOnes p.maskBits
    ∧ BitVec.ofInt p.maskBits 0 = 0 := by
  cases p <;> decide

/-- C19: on a canonical mask, a condition that is 0 or has all bits set, lane
`Select` returns what scalar `Select` returns; so selecting with the mask
that a lane predicate stores picks `b` exactly in the lanes where the
predicate holds. -/
theorem Select_agree_on_masks (t : IntTy) {α : Type} (m : t.T) (b a : α)
    (hm : m = 0 ∨ m = BitVec.allOnes t.bits) :
    __vSelect m b a = Select m b a
    ∧ Select_vec [m] [b] [a] = [Select m b a]
    ∧ (∀ (p : Prec) (z : Int), IsMask (some z) →
        __vSelect (BitVec.ofInt p.maskBits z) b a = Select (BitVec.ofInt p.maskBits z) b a
        ∧ __vSelect (BitVec.ofInt p.maskBits z) b a = (if z = -1 then b else a))
    ∧ (∀ (p : Prec) (x y : p.T),
        __vSelect (BitVec.ofInt p.maskBits (__vFOrdLessThan p x y)) b a
          = (if opLt p x y = true then b else a)) := by
  obtain ⟨_, _, _, _, h5, h6⟩ := top_bit_only t
  have h1 : __vSelect m b a = Select m b a := by
    show (if msbIsSet m then b else a) = (if m ≠ 0 then b else a)
    rw [msbIsSet_eq_msb]
    rcases hm with h | h
    · rw [h, if_neg (not_not.2 rfl)]; simp
    · rw [h, if_pos h6, h5]; simp
  have h3 : ∀ (p : Prec) (z : Int), IsMask (some z) →
      __vSelect (BitVec.ofInt p.maskBits z) b a = Select (BitVec.ofInt p.maskBits z) b a
      ∧ __vSelect (BitVec.ofInt p.maskBits z) b a = (if z = -1 then b else a) := by
    intro p z hz
    obtain ⟨g1, g2, g3, g4⟩ := ofInt_mask_msb p
    have hne : BitVec.allOnes p.maskBits ≠ 0 := by cases p <;> decide
    show (if msbIsSet (BitVec.ofInt p.maskBits z) then b else a)
        = (if BitVec.ofInt p.maskBits z ≠ 0 then b else a)
      ∧ (if msbIsSet (BitVec.ofInt p.maskBits z) then b else a) = (if z = -1 then b else a)
    rw [msbIsSet_eq_msb]
    rcases hz with h | h
    · have hz0 : z = 0 := Option.some.inj h
      subst hz0
      rw [g2, g4, if_neg (not_not.2 rfl)]
      simp
    · have hz1 : z = -1 := Option.some.inj h
      subst hz1
      rw [g1, g3, if_pos hne]
      simp
  refine ⟨h1, ?_, h3, ?_⟩
  · show [__vSelect m b a] = [Select m b a]
    rw [h1]
  · intro p x y
    rw [vFOrdLessThan_eq]
    cases hlt : opLt p x y
    · have := (h3 p 0 (Or.inl rfl)).2
      simpa using this
    · have := (h3 p (-1) (Or.inr rfl)).2
      simpa using this

theorem Select_agree_on_masks_witness :
    ((0xFFFF#16 : IntTy.T IntTy.short) = 0
      ∨ (0xFFFF#16 : IntTy.T IntTy.short) = BitVec.allOnes (IntTy.bits IntTy.short))
    ∧ __vSelect (0xFFFF#16 : IntTy.T IntTy.short) (0x3C00#16 : cl_half) (0x4000#16 : cl_half)
        = Select (0xFFFF#16 : IntTy.T IntTy.short) (0x3C00#16 : cl_half) (0x4000#16 : cl_half) :=
  ⟨Or.inr (by decide),
    (Select_agree_on_masks IntTy.short (0xFFFF#16 : IntTy.T IntTy.short) (0x3C00#16 : cl_half)
      (0x4000#16 : cl_half) (Or.inr (by decide))).1⟩

/-- C20: `FOrdEqual` and `FUnordNotEqual` are complements on every input of
every precision, NaN operands included: the scalar results add up to 1, and
of the two lane masks one has all bits set and the other is zero. -/
theorem FOrdEqual_FUnordNotEqual_complement (p : Prec) (x y : p.T) :
    (∃ e n : Int, FOrdEqual p x y = some e ∧ FUnordNotEqual p x y = some n ∧ e + n = 1)
    ∧ ((FOrdEqual p x y = some 1 ∧ FUnordNotEqual p x y = some 0)
        ∨ (FOrdEqual p x y = some 0 ∧ FUnordNotEqual p x y = some 1))
    ∧ ((FOrdEqual_lane p x y = some (-1) ∧ FUnordNotEqual_lane p x y = some 0)
        ∨ (FOrdEqual_lane p x y = some 0 ∧ FUnordNotEqual_lane p x y = some (-1))) := by
  rw [FOrdEqual_eq, FUnordNotEqual_eq, FOrdEqual_lane_eq, FUnordNotEqual_lane_eq]
  have hne : opNe p x y = !opEq p x y := by
    unfold opNe opEq
    by_cases h : p.cmp x y = some Ordering.eq <;> simp [h]
  rw [hne]
  cases opEq p x y
  · exact ⟨⟨0, 1, rfl, rfl, rfl⟩, Or.inr ⟨rfl, rfl⟩, Or.inr ⟨rfl, rfl⟩⟩
  · exact ⟨⟨1, 0, rfl, rfl, rfl⟩, Or.inl ⟨rfl, rfl⟩, Or.inl ⟨rfl, rfl⟩⟩

/-! ## Mirror images of the ordered comparisons -/

theorem val_cmp_swap (a b : Val) : a.cmp b = (b.cmp a).map Ordering.swap := by
  cases a with
  | nan => cases b <;> rfl
  | inf s =>
    cases b with
    | nan => rfl
    | inf u => cases s <;> cases u <;> rfl
    | fin z => cases s <;> rfl
  | fin z =>
    cases b with
    | nan => rfl
    | inf u => cases u <;> rfl
    | fin v =>
      simp only [Val.cmp, Option.map_some']
      rcases lt_trichotomy z v with h | h | h
      · have h1 : ¬ v < z := by omega
        have h2 : ¬ v = z := by omega
        simp [h, h1, h2, Ordering.swap]
      · subst h
        simp [Ordering.swap]
      · have h1 : ¬ z < v := by omega
        have h2 : ¬ z = v := by omega
        simp [h, h1, h2, Ordering.swap]

theorem prec_cmp_swap (p : Prec) (x y : p.T) :
    p.cmp x y = (p.cmp y x).map Ordering.swap := by
  cases p <;> exact val_cmp_swap _ _

theorem opGt_eq_opLt_swap (p : Prec) (x y : p.T) : opGt p x y = opLt p y x := by
  unfold opGt opLt
  rw [prec_cmp_swap p x y]
  cases p.cmp y x with
  | none => rfl
  | some o => cases o <;> rfl

theorem opGe_eq_opLe_swap (p : Prec) (x y : p.T) : opGe p x y = opLe p y x := by
  unfold opGe opLe
  rw [prec_cmp_swap p x y]
  cases p.cmp y x with
  | none => rfl
  | some o => cases o <;> rfl

/-- C21: the ordered comparisons are mirror images under operand swap, on
every input of every precision, NaN operands included:
`FOrdGreaterThan(x, y) == FOrdLessThan(y, x)` and
`FOrdGreaterThanEqual(x, y) == FOrdLessThanEqual(y, x)`, in scalar form and
in lane form. -/
theorem ordered_comparisons_mirror (p : Prec) (x y : p.T) :
    FOrdGreaterThan p x y = some (FOrdLessThan p y x)
    ∧ FOrdGreaterThanEqual p x y = FOrdLessThanEqual p y x
    ∧ FOrdGreaterThan_lane p x y = FOrdLessThan_lane p y x
    ∧ FOrdGreaterThanEqual_lane p x y = FOrdLessThanEqual_lane p y x := by
  refine ⟨?_, ?_, ?_, ?_⟩
  · rw [FOrdGreaterThan_eq, FOrdLessThan_eq, opGt_eq_opLt_swap]
  · rw [FOrdGreaterThanEqual_eq, FOrdLessThanEqual_eq, opGe_eq_opLe_swap]
  · rw [FOrdGreaterThan_lane_eq, opGt_eq_opLt_swap]
    unfold FOrdLessThan_lane
    rw [vFOrdLessThan_eq]
  · rw [FOrdGreaterThanEqual_lane_eq, FOrdLessThanEqual_lane_eq, opGe_eq_opLe_swap]

end HostStd

namespace Translate

theorem makeArrayRef_length : ∀ (n : Nat) (bytes : List Byte), 4 * n ≤ bytes.length →
    (makeArrayRef bytes n).length = n := by
  intro n
  induction n with
  | zero => intro bytes _; cases bytes <;> simp [makeArrayRef]
  | succ k ih =>
    intro bytes h
    match bytes, h with
    | b0 :: b1 :: b2 :: b3 :: rest, h =>
      simp only [makeArrayRef, List.length_cons]
      rw [ih rest (by simp only [List.length_cons] at h; omega)]
    | [], h => simp at h
    | [_], h => simp at h; omega
    | [_, _], h => simp at h; omega
    | [_, _, _], h => simp at h; omega

theorem wordBytes_length (ws : List Word) : (wordBytes ws).length = 4 * ws.length := by
  induction ws with
  | nil => rfl
  | cons w ws ih => simp only [wordBytes, List.length_cons, ih]; omega

/-- Viewing the bytes of a word array as words again gives the array back. -/
theorem makeArrayRef_wordBytes (ws : List Word) :
    makeArrayRef (wordBytes ws) ws.length = ws := by
  induction ws with
  | nil => rfl
  | cons w ws ih => simp only [wordBytes, List.length_cons, makeArrayRef, ih]

/-- C22: on a buffer whose size is not a multiple of 4, `deserializeModule`
returns a null module and does not call the SPIR-V deserializer; on a buffer
whose size is a multiple of 4 it calls the deserializer once, on exactly
`size / 4` words, and returns a null module whenever that call fails. -/
theorem deserializeModule_words {S M : Type} (L : Library S M) (input : MemoryBuffer) :
    (input.getBufferSize % 4 ≠ 0 →
      (deserializeModule L input).module = none ∧ (deserializeModule L input).calls = [])
    ∧ (input.getBufferSize % 4 = 0 →
        (deserializeModule L input).calls
          = [makeArrayRef input.bytes (input.getBufferSize / 4)]
        ∧ (makeArrayRef input.bytes (input.getBufferSize / 4)).length
          = input.getBufferSize / 4
        ∧ (L.deserialize (makeArrayRef input.bytes (input.getBufferSize / 4)) = none →
            (deserializeModule L input).module = none)
        ∧ (∀ s, L.deserialize (makeArrayRef input.bytes (input.getBufferSize / 4)) = some s →
            (deserializeModule L input).module
              = some (L.push_front (L.create ⟨input.identifier, 0, 0⟩) s))) := by
  constructor
  · intro h
    unfold deserializeModule
    simp only [h, ne_eq, not_false_eq_true, if_true, and_self]
  · intro h
    have hlen : (makeArrayRef input.bytes (input.getBufferSize / 4)).length
        = input.getBufferSize / 4 :=
      makeArrayRef_length _ _ (by unfold MemoryBuffer.getBufferSize at *; omega)
    have hn : ¬ (input.getBufferSize % 4 ≠ 0) := not_not.2 h
    unfold deserializeModule
    simp only [hn, if_false]
    refine ⟨?_, hlen, ?_, ?_⟩
    · cases L.deserialize (makeArrayRef input.bytes (input.getBufferSize / 4)) <;> rfl
    · intro hd; rw [hd]
    · intro s hd; rw [hd]

theorem deserializeModule_words_witness :
    MemoryBuffer.getBufferSize ⟨"a.spv", [0x03#8, 0x02#8, 0x23#8]⟩ % 4 ≠ 0
    ∧ (deserializeModule (⟨fun ws => some ws, fun s => (LogicalResult.success, s),
          fun m => m, fun _ => [], fun m s => s :: m⟩ : Library (List Word) (List (List Word)))
        ⟨"a.spv", [0x03#8, 0x02#8, 0x23#8]⟩).module = none
    ∧ (deserializeModule (⟨fun ws => some ws, fun s => (LogicalResult.success, s),
          fun m => m, fun _ => [], fun m s => s :: m⟩ : Library (List Word) (List (List Word)))
        ⟨"a.spv", [0x03#8, 0x02#8, 0x23#8]⟩).calls = [] :=
  ⟨by decide,
    ((deserializeModule_words (⟨fun ws => some ws, fun s => (LogicalResult.success, s),
          fun m => m, fun _ => [], fun m s => s :: m⟩ : Library (List Word) (List (List Word)))
        ⟨"a.spv", [0x03#8, 0x02#8, 0x23#8]⟩).1 (by decide)).1,
    ((deserializeModule_words (⟨fun ws => some ws, fun s => (LogicalResult.success, s),
          fun m => m, fun _ => [], fun m s => s :: m⟩ : Library (List Word) (List (List Word)))
        ⟨"a.spv", [0x03#8, 0x02#8, 0x23#8]⟩).1 (by decide)).2⟩

/-- C23: `serializeModule` succeeds exactly when the module is non-null, holds
exactly one spv.module op and the serializer succeeds on it; with no such op
or more than one it fails; whenever it fails the output stream is unchanged,
and on success the bytes of the serialized words, four per word, are appended
to it. -/
theorem serializeModule_result {S M : Type} (L : Library S M) (module : Option M)
    (output : List Byte) :
    ((serializeModule L module output).result = LogicalResult.success
      ↔ ∃ m op, module = some m ∧ L.walk m = [op]
          ∧ (L.serialize op).1 = LogicalResult.success)
    ∧ (module = none → (serializeModule L module output).result = LogicalResult.failure)
    ∧ (∀ m, module = some m → (L.walk m).length ≠ 1 →
        (serializeModule L module output).result = LogicalResult.failure)
    ∧ (∀ m op, module = some m → L.walk m = [op]
        → (L.serialize op).1 = LogicalResult.failure →
        (serializeModule L module output).result = LogicalResult.failure)
    ∧ ((serializeModule L module output).result = LogicalResult.failure →
        (serializeModule L module output).output = output)
    ∧ (∀ m op, module = some m → L.walk m = [op]
        → (L.serialize op).1 = LogicalResult.success →
        (serializeModule L module output).output = output ++ wordBytes (L.serialize op).2
        ∧ (serializeModule L module output).output.length
            = output.length + 4 * (L.serialize op).2.length) := by
  cases module with
  | none =>
    refine ⟨?_, ?_, ?_, ?_, ?_, ?_⟩
    · constructor
      · intro h; exact absurd h (by simp [serializeModule])
      · rintro ⟨m, op, hm, _⟩; exact absurd hm (by simp)
    · intro _; rfl
    · intro m hm; exact absurd hm (by simp)
    · intro m op hm; exact absurd hm (by simp)
    · intro _; rfl
    · intro m op hm; exact absurd hm (by simp)
  | some m0 =>
    cases hw : L.walk m0 with
    | nil =>
      refine ⟨?_, ?_, ?_, ?_, ?_, ?_⟩
      · constructor
        · intro h; simp [serializeModule, hw] at h
        · rintro ⟨m, op, hm, hop, _⟩
          cases hm
          rw [hw] at hop; exact absurd hop (by simp)
      · intro h; exact absurd h (by simp)
      · intro m hm _; simp [serializeModule, hw]
      · intro m op hm hop
        cases hm
        rw [hw] at hop; exact absurd hop (by simp)
      · intro _; simp [serializeModule, hw]
      · intro m op hm hop
        cases hm
        rw [hw] at hop; exact absurd hop (by simp)
    | cons op0 rest =>
      cases rest with
      | nil =>
        cases hs : L.serialize op0 with
        | mk r binary =>
          cases r with
          | success =>
            refine ⟨?_, ?_, ?_, ?_, ?_, ?_⟩
            · constructor
              · intro _; exact ⟨m0, op0, rfl, hw, by rw [hs]⟩
              · intro _; simp [serializeModule, hw, hs]
            · intro h; exact absurd h (by simp)
            · intro m hm hl
              cases hm
              rw [hw] at hl; exact absurd rfl hl
            · intro m op hm hop hf
              cases hm
              rw [hw] at hop
              cases hop
              rw [hs] at hf; exact absurd hf (by simp)
            · intro h; simp [serializeModule, hw, hs] at h
            · intro m op hm hop _
              cases hm
              rw [hw] at hop
              cases hop
              rw [hs]
              have : (serializeModule L (some m0) output).output = output ++ wordBytes binary := by
                simp [serializeModule, hw, hs]
              rw [this, List.length_append, wordBytes_length]
              exact ⟨rfl, rfl⟩
          | failure =>
            refine ⟨?_, ?_, ?_, ?_, ?_, ?_⟩
            · constructor
              · intro h; simp [serializeModule, hw, hs] at h
              · rintro ⟨m, op, hm, hop, hok⟩
                cases hm
                rw [hw] at hop
                cases hop
                rw [hs] at hok; exact absurd hok (by simp)
            · intro h; exact absurd h (by simp)
            · intro m hm _; simp [serializeModule, hw, hs]
            · intro m op hm hop _; simp [serializeModule, hw, hs]
            · intro _; simp [serializeModule, hw, hs]
            · intro m op hm hop hok
              cases hm
              rw [hw] at hop
              cases hop
              rw [hs] at hok; exact absurd hok (by simp)
      | cons op1 rest2 =>
        refine ⟨?_, ?_, ?_, ?_, ?_, ?_⟩
        · constructor
          · intro h; simp [serializeModule, hw] at h
          · rintro ⟨m, op, hm, hop, _⟩
            cases hm
            rw [hw] at hop; exact absurd hop (by simp)
        · intro h; exact absurd h (by simp)
        · intro m hm _; simp [serializeModule, hw]
        · intro m op hm hop
          cases hm
          rw [hw] at hop; exact absurd hop (by simp)
        · intro _; simp [serializeModule, hw]
        · intro m op hm hop
          cases hm
          rw [hw] at hop; exact absurd hop (by simp)

theorem serializeModule_result_witness :
    (serializeModule (⟨fun ws => some ws, fun s => (LogicalResult.success, s),
        fun m => m, fun _ => [], fun m s => s :: m⟩ : Library (List Word) (List (List Word)))
      (some [[⟨0x03#8, 0x02#8, 0x23#8, 0x07#8⟩, ⟨0x00#8, 0x00#8, 0x01#8, 0x00#8⟩]])
      [0xFF#8]).output
      = [0xFF#8] ++ wordBytes [⟨0x03#8, 0x02#8, 0x23#8, 0x07#8⟩, ⟨0x00#8, 0x00#8, 0x01#8, 0x00#8⟩]
    ∧ (serializeModule (⟨fun ws => some ws, fun s => (LogicalResult.success, s),
        fun m => m, fun _ => [], fun m s => s :: m⟩ : Library (List Word) (List (List Word)))
      (some [[⟨0x03#8, 0x02#8, 0x23#8, 0x07#8⟩, ⟨0x00#8, 0x00#8, 0x01#8, 0x00#8⟩]])
      [0xFF#8]).output.length = 1 + 4 * 2 :=
  (serializeModule_result (⟨fun ws => some ws, fun s => (LogicalResult.success, s),
        fun m => m, fun _ => [], fun m s => s :: m⟩ : Library (List Word) (List (List Word)))
      (some [[⟨0x03#8, 0x02#8, 0x23#8, 0x07#8⟩, ⟨0x00#8, 0x00#8, 0x01#8, 0x00#8⟩]])
      [0xFF#8]).2.2.2.2.2
    [[⟨0x03#8, 0x02#8, 0x23#8, 0x07#8⟩, ⟨0x00#8, 0x00#8, 0x01#8, 0x00#8⟩]]
    [⟨0x03#8, 0x02#8, 0x23#8, 0x07#8⟩, ⟨0x00#8, 0x00#8, 0x01#8, 0x00#8⟩] rfl rfl rfl

end Translate
